import Mathlib

/-!
# tagslam: camera intrinsics and odometry processor

A shallow embedding of `src/src/camera_intrinsics.cpp` and
`src/src/odometry_processor.cpp`, followed by the properties proved about it.

Conventions of the embedding

* `double` values are elements of a linearly ordered field `R` (exact arithmetic);
  the definitions are generic in `R`, so they run on `ℚ` and the theorems hold for `ℝ`.
* `uint64_t` values are natural numbers; the one unsigned subtraction of the code is
  written out modulo `2 ^ 64`.
* a member function that mutates the object returns the new object next to its result.
* code that throws returns `Except`.
-/

namespace tagslam

/-! ## camera_intrinsics.cpp -/

/-- Modelled from the spec: the declaration of the enum (camera_intrinsics.hpp) is not among
the sources. The spec enumerates `RADTAN` and `EQUIDISTANT`; `other n` stands for any further
enumerator the declaration may have (the fall-through of `model_to_string` is for those). -/
inductive DistortionModel where
  | RADTAN
  | EQUIDISTANT
  | other (n : Nat)
deriving DecidableEq, Repr

open DistortionModel

/-- Byte-wise lexicographic "less than" on character sequences, the order of
`std::less<std::string>` that `std::map<string, _>` sorts its keys with. -/
def lexLess : List Char → List Char → Bool
  | [], [] => false
  | [], _ :: _ => true
  | _ :: _, [] => false
  | a :: as, b :: bs =>
    if a.toNat < b.toNat then true
    else if b.toNat < a.toNat then false
    else lexLess as bs

/-- Key comparison of `std::map<string, _>`. -/
def keyLess (a b : String) : Bool := lexLess a.toList b.toList

/-- Insertion into a `std::map<string, V>`, kept as the list of its entries in ascending key
order (the order a range-for iterates in). An entry whose key is present already is not
inserted, as for the initializer-list constructor. -/
def mapInsert {V : Type} (m : List (String × V)) (kv : String × V) : List (String × V) :=
  match m with
  | [] => [kv]
  | e :: rest =>
    if keyLess kv.1 e.1 then kv :: e :: rest
    else if keyLess e.1 kv.1 then e :: mapInsert rest kv
    else e :: rest

/-- Lookup by exact key: `m.count(k) == 0` is `none`, otherwise `m[k]`. -/
def mapFind {V : Type} (m : List (String × V)) (k : String) : Option V :=
  match m.find? (fun e => e.1 == k) with
  | some e => some e.2
  | none => none

/-- The alias table `distMap` (lines 34-37), built from its initializer list. -/
def distMap : List (String × DistortionModel) :=
  [("rad_tan", RADTAN), ("radtan", RADTAN), ("plumb_bob", RADTAN),
   ("equidistant", EQUIDISTANT), ("equi", EQUIDISTANT), ("fisheye", EQUIDISTANT)].foldl
    mapInsert []

/-- The function `model_to_string` (lines 39-47): the key of the first entry of `distMap`, in
iteration order, whose value is `m`; `"INVALID"` when there is none. -/
def model_to_string (m : DistortionModel) : String :=
  match distMap.find? (fun dm => dm.2 == m) with
  | some dm => dm.1
  | none => "INVALID"

/-- Modelled from the spec: `YAML::Node` and the helpers `yaml::parse`, `yaml::parse_container`
(yaml.hpp) are not among the sources. A camera block has the five fields of the parse
contract; a field that is absent is `none`, and reading it throws. -/
structure YamlNode (R : Type) where
  camera_model : Option String
  distortion_model : Option String
  distortion_coeffs : Option (List R)
  intrinsics : Option (List R)
  resolution : Option (List Int)

/-- What `parse_no_error` can end with instead of a value. -/
inductive ParseError where
  /-- a `yaml::parse` / `yaml::parse_container` call on an absent field -/
  | missingField (key : String)
  /-- the exception thrown by `BOMB_OUT(msg)` -/
  | bombOut (msg : String)
  /-- the process dies on a read past the end of a vector -/
  | outOfRange (index : Nat)
deriving DecidableEq, Repr

/-- The class `CameraIntrinsics`: the members that `parse_no_error` fills. -/
structure CameraIntrinsics (R : Type) where
  cameraModel_ : String
  distortionModel_ : DistortionModel
  distortionCoeffs_ : List R
  K_ : List R
  resolution_ : List Int
  /-- the 3x3 matrix, by rows -/
  cvK_ : List (List R)
  /-- the 1 x n matrix of the distortion coefficients -/
  cvD_ : List R

/-- Reading an absent field throws. -/
def yamlParse {α : Type} (field : Option α) (key : String) : Except ParseError α :=
  match field with
  | some v => .ok v
  | none => .error (.missingField key)

/-- The read `v[i]` of a `std::vector`, which is unchecked: in range it is the element; past
the end the behaviour is undefined in C++ (some value is read, or the process dies), and is
what the parameter `ub` says. -/
def vecAt {α : Type} (ub : List α → Nat → Except ParseError α) (v : List α) (i : Nat) :
    Except ParseError α :=
  match v[i]? with
  | some x => .ok x
  | none => ub v i

/-- The function `CameraIntrinsics::parse_no_error` (lines 49-73). No length is tested: the
reads `K_[0]`, ..., `K_[3]` of lines 64-66 are unchecked, and `ub` is what a read past the
end does. -/
def parse_no_error {R : Type} [Zero R] [One R] (ub : List R → Nat → Except ParseError R)
    (config : YamlNode R) : Except ParseError (CameraIntrinsics R) := do
  let cameraModel ← yamlParse config.camera_model "camera_model"
  let distModel ← yamlParse config.distortion_model "distortion_model"
  match mapFind distMap distModel with
  | none => .error (.bombOut ("unknown distortion model: " ++ distModel))
  | some distortionModel =>
    let D ← yamlParse config.distortion_coeffs "distortion_coeffs"
    let K ← yamlParse config.intrinsics "intrinsics"
    let resolution ← yamlParse config.resolution "resolution"
    let k0 ← vecAt ub K 0
    let k2 ← vecAt ub K 2
    let k1 ← vecAt ub K 1
    let k3 ← vecAt ub K 3
    .ok { cameraModel_ := cameraModel
          distortionModel_ := distortionModel
          distortionCoeffs_ := D
          K_ := K
          resolution_ := resolution
          cvK_ := [[k0, 0, k2], [0, k1, k3], [0, 0, 1]]
          cvD_ := D }

/-- The function `CameraIntrinsics::writeYaml` (lines 84-98): the lines written to the stream.
The number formatting of `yaml_utils::write_container` is not among the sources and is taken
as the parameters `wd` (doubles) and `wi` (ints). -/
def writeYaml {R : Type} (wd : List R → String) (wi : List Int → String)
    (ci : CameraIntrinsics R) (pf : String) : List String :=
  [ pf ++ "camera_model: " ++ ci.cameraModel_,
    pf ++ "distortion_coeffs: " ++ wd ci.distortionCoeffs_,
    pf ++ "distortion_model: " ++ model_to_string ci.distortionModel_,
    pf ++ "intrinsics: " ++ wd ci.K_,
    pf ++ "resolution: " ++ wi ci.resolution_ ]

/-- The six names of the alias table. -/
def aliasNames : List String :=
  ["rad_tan", "radtan", "plumb_bob", "equidistant", "equi", "fisheye"]

/-! ## odometry_processor.cpp -/

/-- An `Eigen::Vector3d`. -/
structure Vec3 (R : Type) where
  x : R
  y : R
  z : R
deriving DecidableEq, Repr

namespace Vec3

variable {R : Type} [LinearOrderedField R]

/-- The vector `Eigen::Vector3d(0, 0, 0)`. -/
def zero : Vec3 R := ⟨0, 0, 0⟩

/-- The difference `a - b`. -/
def sub (a b : Vec3 R) : Vec3 R := ⟨a.x - b.x, a.y - b.y, a.z - b.z⟩

/-- The product `v * k` with a scalar. -/
def scale (v : Vec3 R) (k : R) : Vec3 R := ⟨v.x * k, v.y * k, v.z * k⟩

/-- The member `squaredNorm()`. -/
def squaredNorm (v : Vec3 R) : R := v.x * v.x + v.y * v.y + v.z * v.z

/-- The member `norm()`, the square root of `squaredNorm()`, over a given square root. -/
def norm (sqrt : R → R) (v : Vec3 R) : R := sqrt (squaredNorm v)

end Vec3

/-- A `geometry_msgs` quaternion. -/
structure Quaternion (R : Type) where
  w : R
  x : R
  y : R
  z : R
deriving DecidableEq, Repr

/-- The fields of `nav_msgs::msg::Odometry` that the processor reads or writes. -/
structure Odometry (R : Type) where
  frame_id : String
  stamp : Nat
  orientation : Quaternion R
  position : Vec3 R
deriving DecidableEq, Repr

/-- Modelled from the spec: the rigid transform type `Transform` with its operations
(geometry.hpp, Eigen), `std::sqrt` and `Graph::body_name` are not among the sources. They are
the parameters of the embedding: `T` is the transform type, `mul` its composition `a * b`,
`angle` and `axis` the angle-axis form of `d.rotation()`. -/
structure Geometry (R T : Type) where
  make_transform : Quaternion R → Vec3 R → T
  mul : T → T → T
  inverse : T → T
  translation : T → Vec3 R
  angle : T → R
  axis : T → Vec3 R
  sqrt : R → R
  body_name : String → String

/-- Modelled from the spec: pose_noise.hpp is not among the sources. A noise model is the pair
(rotational magnitude, translational magnitude). -/
structure PoseNoise (R : Type) where
  rotational : R
  translational : R
deriving DecidableEq, Repr

/-- The factory `PoseNoise::make(angle noise, position noise)`. -/
def PoseNoise.make {R : Type} (a p : R) : PoseNoise R := ⟨a, p⟩

/-- Modelled from the spec: pose_with_noise.hpp is not among the sources. The constructor
takes a transform, its noise and a flag, which the spec reads as "incremental, not absolute". -/
structure PoseWithNoise (R T : Type) where
  pose : T
  noise : PoseNoise R
  incremental : Bool

/-- Modelled from the spec: body.hpp is not among the sources. The getters that the
constructor of the processor calls. -/
structure Body (R T : Type) where
  getName : String
  getOdomAccelerationNoiseMin : R
  getOdomAngularAccelerationNoiseMin : R
  getOdomAccelerationNoiseMax : R
  getOdomAngularAccelerationNoiseMax : R
  getOdomRotationNoise : R
  getOdomTranslationNoise : R
  getTransformBodyOdom : T

/-- A descriptor; `none` is the sentinel "not found". -/
abbrev VertexDesc := Option Nat

/-- Modelled from the spec: vertex.hpp and the factor classes are not among the sources. A
vertex of the graph is a pose of a body at a time or a factor; the only factor made here is
the relative pose prior `factor::RelativePosePrior(tCurr, tPrev, deltaPose, name)`. -/
inductive Vertex (R T : Type) where
  | pose (t : Nat) (name : String) (isFixed : Bool)
  | relativePosePrior (tCurr tPrev : Nat) (deltaPose : PoseWithNoise R T) (name : String)

/-- Modelled from the spec: graph.hpp is not among the sources. The graph owns a contiguous
store of vertices and factors; a descriptor is an index into it. -/
structure Graph (R T : Type) where
  vertices : List (Vertex R T)

namespace Graph

variable {R T : Type}

/-- Whether a vertex is the pose vertex of the key `(t, name)`. -/
def isPoseOf (t : Nat) (name : String) : Vertex R T → Bool
  | .pose t1 name1 _ => t1 == t && name1 == name
  | .relativePosePrior _ _ _ _ => false

/-- The predicate `Graph::is_valid`. -/
def is_valid (d : VertexDesc) : Bool := d.isSome

/-- Modelled from the spec: `findPose(timestamp, name)` returns the descriptor of the pose
vertex of that key, or the sentinel if none exists. -/
def findPose (g : Graph R T) (t : Nat) (name : String) : VertexDesc :=
  g.vertices.findIdx? (isPoseOf t name)

/-- Modelled from the spec: `addPose(timestamp, name, isFixed)` creates a pose vertex iff
none exists for the key and returns the descriptor either way. -/
def addPose (g : Graph R T) (t : Nat) (name : String) (isFixed : Bool) :
    VertexDesc × Graph R T :=
  match g.findPose t name with
  | some d => (some d, g)
  | none => (some g.vertices.length, ⟨g.vertices ++ [.pose t name isFixed]⟩)

/-- Modelled from the spec: `addToGraph` registers the factor and returns its own
descriptor; the factor set is append-only. -/
def addToGraph (g : Graph R T) (fac : Vertex R T) : VertexDesc × Graph R T :=
  (some g.vertices.length, ⟨g.vertices ++ [fac]⟩)

/-- The noise of a vertex that is a relative pose prior. -/
def noiseOf : Vertex R T → Option (PoseNoise R)
  | .pose _ _ _ => none
  | .relativePosePrior _ _ deltaPose _ => some deltaPose.noise

/-- The noises of the relative pose priors of the graph, in the order they were added. -/
def factorNoises (g : Graph R T) : List (PoseNoise R) :=
  g.vertices.filterMap noiseOf

end Graph

/-- The class `OdometryProcessor`: its data members. `pub_` is the publisher, kept as the list
of the messages published so far. -/
structure OdometryProcessor (R T : Type) where
  body_ : Body R T
  pub_ : List (Odometry R)
  pose_ : T
  time_ : Nat
  lastOmega_ : Vec3 R
  lastVelocity_ : Vec3 R
  accelerationNoiseMin_ : R
  angularAccelerationNoiseMin_ : R
  accelerationNoiseMax_ : R
  angularAccelerationNoiseMax_ : R
  rotationNoise_ : R
  translationNoise_ : R
  T_body_odom_ : T
  lenSum_ : R
  len2Sum_ : R
  lenMax_ : R
  lenMaxT_ : Nat
  angSum_ : R
  ang2Sum_ : R
  count_ : Nat

/-- The numbers that `finalize` computes and logs. -/
structure OdomStatistics (R : Type) where
  lavg : R
  cov : R
  /-- the logged `std::sqrt(cov)` -/
  lstd : R
  lenMax : R
  lenMaxT : Nat
  aavg : R
  acov : R
  /-- the logged `std::sqrt(acov)` -/
  astd : R
deriving DecidableEq, Repr

namespace OdometryProcessor

variable {R T : Type} [LinearOrderedField R]

/-- The constructor (lines 32-46). Modelled from the spec: the default member initialisers
(odometry_processor.hpp) are not among the sources; a new processor is UNINITIALIZED, which
the code tests as `time_ == 0`, and its statistics are empty. The initial `pose_`, which is
overwritten by the first call of `process`, is the parameter `pose0`. -/
def create (body : Body R T) (pose0 : T) : OdometryProcessor R T :=
  { body_ := body
    pub_ := []
    pose_ := pose0
    time_ := 0
    lastOmega_ := Vec3.zero
    lastVelocity_ := Vec3.zero
    accelerationNoiseMin_ := body.getOdomAccelerationNoiseMin
    angularAccelerationNoiseMin_ := body.getOdomAngularAccelerationNoiseMin
    accelerationNoiseMax_ := body.getOdomAccelerationNoiseMax
    angularAccelerationNoiseMax_ := body.getOdomAngularAccelerationNoiseMax
    rotationNoise_ := body.getOdomRotationNoise
    translationNoise_ := body.getOdomTranslationNoise
    T_body_odom_ := body.getTransformBodyOdom
    lenSum_ := 0
    len2Sum_ := 0
    lenMax_ := 0
    lenMaxT_ := 0
    angSum_ := 0
    ang2Sum_ := 0
    count_ := 0 }

/-- The function `to_pose` (lines 48-54). -/
def to_pose (G : Geometry R T) (odom : Odometry R) : T :=
  G.make_transform odom.orientation odom.position

/-- The difference `t - time_` of two `uint64_t`, as the machine computes it. -/
def elapsed (t time_ : Nat) : Nat := (t + 2 ^ 64 - time_) % 2 ^ 64

/-- The local `dt` of `makeAdaptiveNoise` (line 59):
`std::max((t - time_) * 1e-9, 0.001)`. -/
def adaptiveDt (t time_ : Nat) : R :=
  max ((elapsed t time_ : R) * (1 / 1000000000)) (1 / 1000)

/-- The function `OdometryProcessor::makeAdaptiveNoise` (lines 56-99); `da` is
`aa.angle() * aa.axis()`. -/
def makeAdaptiveNoise (G : Geometry R T) (self : OdometryProcessor R T) (t : Nat)
    (deltaPose : T) : PoseNoise R × OdometryProcessor R T :=
  let dt : R := adaptiveDt t self.time_
  let dt2 := dt * dt
  let dtinv := 1 / dt
  let dx := G.translation deltaPose
  let da := Vec3.scale (G.axis deltaPose) (G.angle deltaPose)
  let v := Vec3.scale dx dtinv
  let w := Vec3.scale da dtinv
  let dpos := Vec3.norm G.sqrt (Vec3.sub dx (Vec3.scale self.lastVelocity_ dt))
  let dang := Vec3.norm G.sqrt (Vec3.sub da (Vec3.scale self.lastOmega_ dt))
  let self1 := { self with lastOmega_ := w, lastVelocity_ := v }
  let angNoise :=
    min (max dang (self1.angularAccelerationNoiseMin_ * dt2))
      (self1.angularAccelerationNoiseMax_ * dt2)
  let posNoise :=
    min (max dpos (self1.accelerationNoiseMin_ * dt2)) (self1.accelerationNoiseMax_ * dt2)
  (PoseNoise.make angNoise posNoise, self1)

/-- The function `OdometryProcessor::updateStatistics` (lines 101-118). -/
def updateStatistics (G : Geometry R T) (self : OdometryProcessor R T) (t : Nat) (d : T) :
    OdometryProcessor R T :=
  let l2 := Vec3.squaredNorm (G.translation d)
  let a := G.angle d
  let l := G.sqrt l2
  let self1 := { self with lenSum_ := self.lenSum_ + l, len2Sum_ := self.len2Sum_ + l2 }
  let self2 := if l ≥ self1.lenMax_ then { self1 with lenMax_ := l, lenMaxT_ := t } else self1
  { self2 with
    angSum_ := self2.angSum_ + a
    ang2Sum_ := self2.ang2Sum_ + a * a
    count_ := self2.count_ + 1 }

/-- The calls of `updateStatistics` for a list of incremental transforms `(t, d)`, in order. -/
def updateStatisticsAll (G : Geometry R T) (self : OdometryProcessor R T)
    (ds : List (Nat × T)) : OdometryProcessor R T :=
  ds.foldl (fun s d => updateStatistics G s d.1 d.2) self

/-- The function `OdometryProcessor::finalize` (lines 120-132), a `const` member: the numbers
it logs, next to the processor, which it hands back as it got it. -/
def finalize (G : Geometry R T) (self : OdometryProcessor R T) :
    OdomStatistics R × OdometryProcessor R T :=
  let dcount : R := (self.count_ : R)
  let cinv : R := if self.count_ > 0 then 1 / dcount else 0
  let lavg := self.lenSum_ * cinv
  let cov := cinv * (self.len2Sum_ - lavg * lavg * dcount)
  let aavg := self.angSum_ * cinv
  let acov := cinv * (self.ang2Sum_ - aavg * aavg * dcount)
  ({ lavg := lavg, cov := cov, lstd := G.sqrt cov, lenMax := self.lenMax_,
     lenMaxT := self.lenMaxT_, aavg := aavg, acov := acov, astd := G.sqrt acov }, self)

/-- The local `deltaPose` of `process` (lines 147-148):
`tf * pose_.inverse() * newPose * tf.inverse()`, the products taken from the left. -/
def deltaPoseOf (G : Geometry R T) (tf pose newPose : T) : T :=
  G.mul (G.mul (G.mul tf (G.inverse pose)) newPose) (G.inverse tf)

/-- The function `OdometryProcessor::add_body_pose_delta` (lines 165-184). -/
def add_body_pose_delta (G : Geometry R T) (graph : Graph R T) (tPrev tCurr : Nat)
    (body : Body R T) (deltaPose : PoseWithNoise R T) : VertexDesc × Graph R T :=
  let name := G.body_name body.getName
  let pp := graph.findPose tPrev name
  let cp := graph.findPose tCurr name
  let graph1 := if !Graph.is_valid pp then (graph.addPose tPrev name false).2 else graph
  let graph2 := if !Graph.is_valid cp then (graph1.addPose tCurr name false).2 else graph1
  let fac : Vertex R T := .relativePosePrior tCurr tPrev deltaPose name
  graph2.addToGraph fac

/-- The function `OdometryProcessor::process` (lines 134-163): the processor, the graph and
the list `*factors` after the call. -/
def process (G : Geometry R T) (self : OdometryProcessor R T) (t : Nat) (graph : Graph R T)
    (msg : Odometry R) (factors : List VertexDesc) :
    OdometryProcessor R T × Graph R T × List VertexDesc :=
  let msg2 := { msg with frame_id := "map", stamp := t }
  let self0 := { self with pub_ := self.pub_ ++ [msg2] }
  let newPose := to_pose G msg
  if self0.time_ = 0 then
    let self1 := { self0 with lastOmega_ := Vec3.zero, lastVelocity_ := Vec3.zero }
    ({ self1 with pose_ := newPose, time_ := t }, graph, factors)
  else
    let deltaPose := deltaPoseOf G self0.T_body_odom_ self0.pose_ newPose
    let r : PoseNoise R × OdometryProcessor R T :=
      if self0.rotationNoise_ ≤ 0 ∨ self0.translationNoise_ ≤ 0 then
        makeAdaptiveNoise G self0 t deltaPose
      else
        (PoseNoise.make self0.rotationNoise_ self0.translationNoise_, self0)
    let pwn : PoseWithNoise R T := ⟨deltaPose, r.1, true⟩
    let self2 := updateStatistics G r.2 t deltaPose
    let fg := add_body_pose_delta G graph self2.time_ t self2.body_ pwn
    ({ self2 with pose_ := newPose, time_ := t }, fg.2, factors ++ [fg.1])

/-- The members that the constructor sets from the body, the configuration. -/
def config (self : OdometryProcessor R T) : Body R T × R × R × R × R × R × R × T :=
  (self.body_, self.accelerationNoiseMin_, self.angularAccelerationNoiseMin_,
    self.accelerationNoiseMax_, self.angularAccelerationNoiseMax_, self.rotationNoise_,
    self.translationNoise_, self.T_body_odom_)

/-- The messages `msg 0`, ..., `msg n` at the timestamps `t0`, `t0 + step`, ...,
`t0 + n * step`: samples at a constant time step. -/
def uniformRun (t0 step : Nat) (msg : Nat → Odometry R) (n : Nat) : List (Nat × Odometry R) :=
  (List.range (n + 1)).map (fun i => (t0 + i * step, msg i))

/-- A run of `process` over a list of messages `(t, msg)`, in order. -/
def processAll (G : Geometry R T) :
    OdometryProcessor R T × Graph R T × List VertexDesc → List (Nat × Odometry R) →
      OdometryProcessor R T × Graph R T × List VertexDesc
  | st, [] => st
  | st, (t, msg) :: rest => processAll G (process G st.1 t st.2.1 msg st.2.2) rest

end OdometryProcessor

/-- A geometry to evaluate the code on: the transforms that are pure translations (rotation
the identity, of angle 0 about the x axis) with rational coordinates; `Rat.sqrt` is exact on
the squares of rationals. -/
def translationGeometry : Geometry ℚ (Vec3 ℚ) :=
  { make_transform := fun _ p => p
    mul := fun a b => ⟨a.x + b.x, a.y + b.y, a.z + b.z⟩
    inverse := fun a => ⟨-a.x, -a.y, -a.z⟩
    translation := fun a => a
    angle := fun _ => 0
    axis := fun _ => ⟨1, 0, 0⟩
    sqrt := Rat.sqrt
    body_name := fun name => "body:" ++ name }

/-- A body in adaptive mode (no fixed noise), acceleration noise between 1/10 and 10. -/
def adaptiveBody : Body ℚ (Vec3 ℚ) :=
  { getName := "rig"
    getOdomAccelerationNoiseMin := 1 / 10
    getOdomAngularAccelerationNoiseMin := 1 / 10
    getOdomAccelerationNoiseMax := 10
    getOdomAngularAccelerationNoiseMax := 10
    getOdomRotationNoise := 0
    getOdomTranslationNoise := 0
    getTransformBodyOdom := ⟨0, 0, 0⟩ }

/-- A body with the fixed noise (1/100, 1/50). -/
def fixedBody : Body ℚ (Vec3 ℚ) :=
  { adaptiveBody with getOdomRotationNoise := 1 / 100, getOdomTranslationNoise := 1 / 50 }

/-- An odometry message at position `(x, 0, 0)`, orientation the identity. -/
def odomAt (x : ℚ) : Odometry ℚ :=
  { frame_id := "odom", stamp := 0, orientation := ⟨1, 0, 0, 0⟩, position := ⟨x, 0, 0⟩ }

/-- An empty graph. -/
def emptyGraph : Graph ℚ (Vec3 ℚ) := ⟨[]⟩

/-- A processor in adaptive mode that has seen a first pose, at the origin, at the time
1000000000 ns. -/
def trackingState : OdometryProcessor ℚ (Vec3 ℚ) :=
  { OdometryProcessor.create adaptiveBody ⟨0, 0, 0⟩ with time_ := 1000000000 }

/-- A processor with fixed noise that has seen a first pose, at the origin, at the time
1000000000 ns. -/
def fixedTrackingState : OdometryProcessor ℚ (Vec3 ℚ) :=
  { OdometryProcessor.create fixedBody ⟨0, 0, 0⟩ with time_ := 1000000000 }

/-- The node a YAML reader gets from the lines that `writeYaml` writes for `ci`: the model
name is the one `model_to_string` gives; the numbers are taken to read back as stored (their
text form belongs to `yaml_utils::write_container`, which is not among the sources). -/
def yamlOf {R : Type} (ci : CameraIntrinsics R) : YamlNode R :=
  { camera_model := some ci.cameraModel_
    distortion_model := some (model_to_string ci.distortionModel_)
    distortion_coeffs := some ci.distortionCoeffs_
    intrinsics := some ci.K_
    resolution := some ci.resolution_ }

/-- One behaviour of a read past the end, to evaluate the code with: the process dies. -/
def overrunCrashes : List ℚ → Nat → Except ParseError ℚ :=
  fun _ i => .error (.outOfRange i)

/-- A camera block with five intrinsics values and three resolution values. -/
def oversizedConfig : YamlNode ℚ :=
  { camera_model := some "pinhole"
    distortion_model := some "radtan"
    distortion_coeffs := some [0, 0, 0, 0]
    intrinsics := some [500, 501, 320, 240, 7]
    resolution := some [640, 480, 3] }

/-- A well-formed camera block that names its distortion model "radtan". -/
def radtanConfig : YamlNode ℚ :=
  { camera_model := some "pinhole"
    distortion_model := some "radtan"
    distortion_coeffs := some [0, 0, 0, 0]
    intrinsics := some [500, 501, 320, 240]
    resolution := some [640, 480] }

/-- The value that parsing `radtanConfig` returns. -/
def radtanIntrinsics : CameraIntrinsics ℚ :=
  { cameraModel_ := "pinhole"
    distortionModel_ := RADTAN
    distortionCoeffs_ := [0, 0, 0, 0]
    K_ := [500, 501, 320, 240]
    resolution_ := [640, 480]
    cvK_ := [[500, 0, 320], [0, 501, 240], [0, 0, 1]]
    cvD_ := [0, 0, 0, 0] }

/-! ## Properties of the camera intrinsics -/

/-- The alias table as `std::map` holds it: its entries in ascending key order. -/
theorem distMap_eq : distMap =
    [("equi", EQUIDISTANT), ("equidistant", EQUIDISTANT), ("fisheye", EQUIDISTANT),
     ("plumb_bob", RADTAN), ("rad_tan", RADTAN), ("radtan", RADTAN)] := by decide

theorem key_beq_false {a s : String} (h : ¬ s = a) : (a == s) = false := by
  cases hb : (a == s)
  · rfl
  · exact absurd (eq_of_beq hb).symm h

/-- Lookup in the alias table, case by case. -/
theorem mapFind_distMap (s : String) : mapFind distMap s =
    if s = "equi" then some EQUIDISTANT else if s = "equidistant" then some EQUIDISTANT
    else if s = "fisheye" then some EQUIDISTANT else if s = "plumb_bob" then some RADTAN
    else if s = "rad_tan" then some RADTAN else if s = "radtan" then some RADTAN else none := by
  rw [distMap_eq]
  by_cases h1 : s = "equi"
  · subst h1; decide
  by_cases h2 : s = "equidistant"
  · subst h2; decide
  by_cases h3 : s = "fisheye"
  · subst h3; decide
  by_cases h4 : s = "plumb_bob"
  · subst h4; decide
  by_cases h5 : s = "rad_tan"
  · subst h5; decide
  by_cases h6 : s = "radtan"
  · subst h6; decide
  simp only [mapFind, List.find?, key_beq_false h1, key_beq_false h2, key_beq_false h3,
    key_beq_false h4, key_beq_false h5, key_beq_false h6, if_neg h1, if_neg h2, if_neg h3,
    if_neg h4, if_neg h5, if_neg h6]

theorem mapFind_distMap_radtan (s : String)
    (h : s = "rad_tan" ∨ s = "radtan" ∨ s = "plumb_bob") : mapFind distMap s = some RADTAN := by
  rcases h with h | h | h <;> subst h <;> decide

theorem mapFind_distMap_equidistant (s : String)
    (h : s = "equidistant" ∨ s = "equi" ∨ s = "fisheye") :
    mapFind distMap s = some EQUIDISTANT := by
  rcases h with h | h | h <;> subst h <;> decide

theorem mapFind_distMap_unknown (s : String) (h : s ∉ aliasNames) :
    mapFind distMap s = none := by
  simp only [aliasNames, List.mem_cons, List.mem_singleton, List.not_mem_nil, or_false,
    not_or] at h
  obtain ⟨h1, h2, h3, h4, h5, h6⟩ := h
  rw [mapFind_distMap, if_neg h5, if_neg h4, if_neg h6, if_neg h3, if_neg h1, if_neg h2]

/-- A name that the table resolves is one of the six aliases, and resolves to a model that
`model_to_string` maps to a name resolving to the same model. -/
theorem mapFind_distMap_some (s : String) (m : DistortionModel)
    (h : mapFind distMap s = some m) :
    s ∈ aliasNames ∧ (m = RADTAN ∨ m = EQUIDISTANT) ∧
      mapFind distMap (model_to_string m) = some m := by
  rw [mapFind_distMap] at h
  split_ifs at h with h1 h2 h3 h4 h5 h6 <;>
    (injection h with h; subst h; subst_vars; decide)

section ParseLemmas

variable {R : Type} [Zero R] [One R] (ub : List R → Nat → Except ParseError R)

/-- The value that a parse returns when all fields are present and the four reads of the
intrinsics give values. -/
theorem parse_no_error_of_reads (c : YamlNode R) (name s : String) (m : DistortionModel)
    (D K : List R) (k0 k1 k2 k3 : R) (r : List Int)
    (hname : c.camera_model = some name) (hs : c.distortion_model = some s)
    (hm : mapFind distMap s = some m) (hD : c.distortion_coeffs = some D)
    (hK : c.intrinsics = some K) (hr : c.resolution = some r)
    (h0 : vecAt ub K 0 = .ok k0) (h1 : vecAt ub K 1 = .ok k1)
    (h2 : vecAt ub K 2 = .ok k2) (h3 : vecAt ub K 3 = .ok k3) :
    parse_no_error ub c = .ok
      { cameraModel_ := name, distortionModel_ := m, distortionCoeffs_ := D,
        K_ := K, resolution_ := r,
        cvK_ := [[k0, 0, k2], [0, k1, k3], [0, 0, 1]], cvD_ := D } := by
  simp [parse_no_error, hname, hs, hm, hD, hK, hr, yamlParse, h0, h1, h2, h3, bind,
    Except.bind]

/-- The value that a parse with all fields present and at least four intrinsics returns. -/
theorem parse_no_error_ok (c : YamlNode R) (name s : String) (m : DistortionModel)
    (D : List R) (k0 k1 k2 k3 : R) (tl : List R) (r : List Int)
    (hname : c.camera_model = some name) (hs : c.distortion_model = some s)
    (hm : mapFind distMap s = some m) (hD : c.distortion_coeffs = some D)
    (hK : c.intrinsics = some (k0 :: k1 :: k2 :: k3 :: tl)) (hr : c.resolution = some r) :
    parse_no_error ub c = .ok
      { cameraModel_ := name, distortionModel_ := m, distortionCoeffs_ := D,
        K_ := k0 :: k1 :: k2 :: k3 :: tl, resolution_ := r,
        cvK_ := [[k0, 0, k2], [0, k1, k3], [0, 0, 1]], cvD_ := D } :=
  parse_no_error_of_reads ub c name s m D _ k0 k1 k2 k3 r hname hs hm hD hK hr
    (by simp [vecAt]) (by simp [vecAt]) (by simp [vecAt]) (by simp [vecAt])

/-- An unknown model name is the `BOMB_OUT` of line 55, whatever the other fields hold. -/
theorem parse_no_error_unknown (c : YamlNode R) (name s : String)
    (hname : c.camera_model = some name) (hs : c.distortion_model = some s)
    (hm : mapFind distMap s = none) :
    parse_no_error ub c = .error (.bombOut ("unknown distortion model: " ++ s)) := by
  simp [parse_no_error, hname, hs, hm, yamlParse, bind, Except.bind]

/-- What a successful parse tells about the node and the value. -/
theorem parse_no_error_inv (c : YamlNode R) (ci : CameraIntrinsics R)
    (h : parse_no_error ub c = .ok ci) :
    ∃ name s D K k0 k1 k2 k3 r, c.camera_model = some name ∧ c.distortion_model = some s ∧
      mapFind distMap s = some ci.distortionModel_ ∧ c.distortion_coeffs = some D ∧
      c.intrinsics = some K ∧ c.resolution = some r ∧
      vecAt ub K 0 = .ok k0 ∧ vecAt ub K 1 = .ok k1 ∧ vecAt ub K 2 = .ok k2 ∧
      vecAt ub K 3 = .ok k3 ∧
      ci = { cameraModel_ := name, distortionModel_ := ci.distortionModel_,
             distortionCoeffs_ := D, K_ := K, resolution_ := r,
             cvK_ := [[k0, 0, k2], [0, k1, k3], [0, 0, 1]], cvD_ := D } := by
  obtain ⟨cm, dm, dc, ik, rs⟩ := c
  cases cm with
  | none => simp [parse_no_error, yamlParse, bind, Except.bind] at h
  | some name =>
  cases dm with
  | none => simp [parse_no_error, yamlParse, bind, Except.bind] at h
  | some s =>
  cases hm : mapFind distMap s with
  | none => simp [parse_no_error, yamlParse, bind, Except.bind, hm] at h
  | some m =>
  cases dc with
  | none => simp [parse_no_error, yamlParse, bind, Except.bind, hm] at h
  | some D =>
  cases rs with
  | none =>
    cases ik <;> simp [parse_no_error, yamlParse, bind, Except.bind, hm] at h
  | some r =>
  cases ik with
  | none => simp [parse_no_error, yamlParse, bind, Except.bind, hm] at h
  | some K =>
  cases h0 : vecAt ub K 0 with
  | error e => simp [parse_no_error, yamlParse, bind, Except.bind, hm, h0] at h
  | ok k0 =>
  cases h2 : vecAt ub K 2 with
  | error e => simp [parse_no_error, yamlParse, bind, Except.bind, hm, h0, h2] at h
  | ok k2 =>
  cases h1 : vecAt ub K 1 with
  | error e => simp [parse_no_error, yamlParse, bind, Except.bind, hm, h0, h2, h1] at h
  | ok k1 =>
  cases h3 : vecAt ub K 3 with
  | error e => simp [parse_no_error, yamlParse, bind, Except.bind, hm, h0, h2, h1, h3] at h
  | ok k3 =>
    have hp := parse_no_error_of_reads ub ⟨some name, some s, some D, some K, some r⟩
      name s m D K k0 k1 k2 k3 r rfl rfl hm rfl rfl rfl h0 h1 h2 h3
    rw [hp] at h
    injection h with h
    subst h
    exact ⟨name, s, D, K, k0, k1, k2, k3, r, rfl, rfl, hm, rfl, rfl, rfl, h0, h1, h2, h3,
      rfl⟩

/-- The model of a successful parse is the one the table gives for the name of the node. -/
theorem parse_no_error_model (c : YamlNode R) (ci : CameraIntrinsics R) (s : String)
    (hs : c.distortion_model = some s) (h : parse_no_error ub c = .ok ci) :
    mapFind distMap s = some ci.distortionModel_ := by
  obtain ⟨_, s1, _, _, _, _, _, _, _, _, hs1, hm, _⟩ := parse_no_error_inv ub c ci h
  rw [hs] at hs1
  injection hs1 with hs1
  rw [hs1]
  exact hm

/-- Parsing fails when the name of the model is not in the table. -/
theorem parse_no_error_fails_of_unknown (c : YamlNode R) (s : String)
    (hs : c.distortion_model = some s) (hm : mapFind distMap s = none) :
    ∃ e, parse_no_error ub c = .error e := by
  cases h : parse_no_error ub c with
  | error e => exact ⟨e, rfl⟩
  | ok ci =>
    have := parse_no_error_model ub c ci s hs h
    rw [hm] at this
    exact absurd this (by simp)

end ParseLemmas

section CameraClaims

variable {R : Type} [Zero R] [One R] (ub : List R → Nat → Except ParseError R)

/-- C1: for a camera block whose `distortion_model` is the string `s`, `parse_no_error`
resolves `s` to RADTAN when `s` is one of "rad_tan", "radtan", "plumb_bob" and to EQUIDISTANT
when it is one of "equidistant", "equi", "fisheye" (every successful parse carries that model,
and the parse does succeed once the other fields are there, with four intrinsics or more);
for every other string the call fails, with the "unknown distortion model" error when the
`camera_model` field, read before, is present. The six names are exactly the keys of the
table, and the match is exact: "RADTAN", "" and "radtan " are not among them. -/
theorem parse_no_error_alias_table (c : YamlNode R) (s : String)
    (hs : c.distortion_model = some s) :
    ((s = "rad_tan" ∨ s = "radtan" ∨ s = "plumb_bob") →
      (∀ ci, parse_no_error ub c = .ok ci → ci.distortionModel_ = RADTAN) ∧
      (∀ name D k0 k1 k2 k3 tl r, c.camera_model = some name → c.distortion_coeffs = some D →
        c.intrinsics = some (k0 :: k1 :: k2 :: k3 :: tl) → c.resolution = some r →
        ∃ ci, parse_no_error ub c = .ok ci ∧ ci.distortionModel_ = RADTAN)) ∧
    ((s = "equidistant" ∨ s = "equi" ∨ s = "fisheye") →
      (∀ ci, parse_no_error ub c = .ok ci → ci.distortionModel_ = EQUIDISTANT) ∧
      (∀ name D k0 k1 k2 k3 tl r, c.camera_model = some name → c.distortion_coeffs = some D →
        c.intrinsics = some (k0 :: k1 :: k2 :: k3 :: tl) → c.resolution = some r →
        ∃ ci, parse_no_error ub c = .ok ci ∧ ci.distortionModel_ = EQUIDISTANT)) ∧
    (s ∉ aliasNames →
      (∃ e, parse_no_error ub c = .error e) ∧
      (∀ name, c.camera_model = some name →
        parse_no_error ub c = .error (.bombOut ("unknown distortion model: " ++ s)))) ∧
    (s ∈ aliasNames ↔ ∃ m, mapFind distMap s = some m) ∧
    "RADTAN" ∉ aliasNames ∧ "" ∉ aliasNames ∧ "radtan " ∉ aliasNames := by
  refine ⟨fun h => ⟨fun ci hci => ?_, fun name D k0 k1 k2 k3 tl r hn hD hK hr => ?_⟩,
    fun h => ⟨fun ci hci => ?_, fun name D k0 k1 k2 k3 tl r hn hD hK hr => ?_⟩,
    fun h => ⟨?_, fun name hn => ?_⟩,
    ⟨fun h => ?_, fun ⟨m, hm⟩ => (mapFind_distMap_some s m hm).1⟩,
    by decide, by decide, by decide⟩
  · have h1 := parse_no_error_model ub c ci s hs hci
    rw [mapFind_distMap_radtan s h] at h1
    injection h1 with h1
    exact h1.symm
  · exact ⟨_, parse_no_error_ok ub c name s RADTAN D k0 k1 k2 k3 tl r hn hs
      (mapFind_distMap_radtan s h) hD hK hr, rfl⟩
  · have h1 := parse_no_error_model ub c ci s hs hci
    rw [mapFind_distMap_equidistant s h] at h1
    injection h1 with h1
    exact h1.symm
  · exact ⟨_, parse_no_error_ok ub c name s EQUIDISTANT D k0 k1 k2 k3 tl r hn hs
      (mapFind_distMap_equidistant s h) hD hK hr, rfl⟩
  · exact parse_no_error_fails_of_unknown ub c s hs (mapFind_distMap_unknown s h)
  · exact parse_no_error_unknown ub c name s hn hs (mapFind_distMap_unknown s h)
  · simp only [aliasNames, List.mem_cons, List.mem_singleton, List.not_mem_nil, or_false] at h
    rcases h with h | h | h | h | h | h
    · exact ⟨RADTAN, mapFind_distMap_radtan s (Or.inl h)⟩
    · exact ⟨RADTAN, mapFind_distMap_radtan s (Or.inr (Or.inl h))⟩
    · exact ⟨RADTAN, mapFind_distMap_radtan s (Or.inr (Or.inr h))⟩
    · exact ⟨EQUIDISTANT, mapFind_distMap_equidistant s (Or.inl h)⟩
    · exact ⟨EQUIDISTANT, mapFind_distMap_equidistant s (Or.inr (Or.inl h))⟩
    · exact ⟨EQUIDISTANT, mapFind_distMap_equidistant s (Or.inr (Or.inr h))⟩

/-- Witness of C1: the block `radtanConfig` names its model "radtan", and every successful
parse of it carries RADTAN. -/
theorem parse_no_error_alias_table_witness :
    radtanConfig.distortion_model = some "radtan" ∧
      ∀ ci, parse_no_error overrunCrashes radtanConfig = .ok ci → ci.distortionModel_ = RADTAN :=
  ⟨rfl, ((parse_no_error_alias_table overrunCrashes radtanConfig "radtan" rfl).1
    (Or.inr (Or.inl rfl))).1⟩

/-- C2: for a model `m` that is RADTAN or EQUIDISTANT, the name `model_to_string m`, which is
what `writeYaml` puts on its `distortion_model` line, is never "INVALID", is in the alias
table and resolves to `m`: a block with that name parses to a value of model `m`. For every
alias `s`, parsing what is written for a parse of `s` gives back the parsed value, so the
model after parse, serialise, parse is the model after the first parse; the model is the
same whatever the unchecked reads of the two parses do, and so is the whole value when there
are at least four intrinsics. -/
theorem model_to_string_round_trip (m : DistortionModel)
    (hm : m = RADTAN ∨ m = EQUIDISTANT) :
    model_to_string m ≠ "INVALID" ∧
    mapFind distMap (model_to_string m) = some m ∧
    (∀ (wd : List R → String) (wi : List Int → String) (ci : CameraIntrinsics R) (pf : String),
      ci.distortionModel_ = m →
      (writeYaml wd wi ci pf)[2]? = some (pf ++ "distortion_model: " ++ model_to_string m)) ∧
    (∀ c : YamlNode R, c.distortion_model = some (model_to_string m) →
      (∀ ci, parse_no_error ub c = .ok ci → ci.distortionModel_ = m) ∧
      (∀ name D k0 k1 k2 k3 tl r, c.camera_model = some name → c.distortion_coeffs = some D →
        c.intrinsics = some (k0 :: k1 :: k2 :: k3 :: tl) → c.resolution = some r →
        ∃ ci, parse_no_error ub c = .ok ci ∧ ci.distortionModel_ = m)) ∧
    (∀ (s : String) (c : YamlNode R) (ci : CameraIntrinsics R), s ∈ aliasNames →
      c.distortion_model = some s → parse_no_error ub c = .ok ci →
      parse_no_error ub (yamlOf ci) = .ok ci) ∧
    (∀ (ub1 : List R → Nat → Except ParseError R) (s : String) (c : YamlNode R)
        (ci : CameraIntrinsics R), s ∈ aliasNames →
      c.distortion_model = some s → parse_no_error ub c = .ok ci →
      (∀ ci1, parse_no_error ub1 (yamlOf ci) = .ok ci1 →
        ci1.distortionModel_ = ci.distortionModel_) ∧
      (4 ≤ ci.K_.length → parse_no_error ub1 (yamlOf ci) = .ok ci)) := by
  have hfind : mapFind distMap (model_to_string m) = some m := by
    rcases hm with h | h <;> subst h <;> decide
  refine ⟨by rcases hm with h | h <;> subst h <;> decide, hfind,
    fun wd wi ci pf hci => by rw [← hci]; rfl,
    fun c hc => ⟨fun ci hci => ?_, fun name D k0 k1 k2 k3 tl r hn hD hK hr =>
      ⟨_, parse_no_error_ok ub c name _ m D k0 k1 k2 k3 tl r hn hc hfind hD hK hr, rfl⟩⟩,
    fun s c ci _ hs hci => ?_, fun ub1 s c ci _ hs hci => ⟨fun ci1 hci1 => ?_, fun hlen => ?_⟩⟩
  · have h1 := parse_no_error_model ub c ci _ hc hci
    rw [hfind] at h1
    injection h1 with h1
    exact h1.symm
  · obtain ⟨name, s1, D, K, k0, k1, k2, k3, r, _, _, _, _, _, _, h0, h1, h2, h3, hval⟩ :=
      parse_no_error_inv ub c ci hci
    have hK : ci.K_ = K := by rw [hval]
    have hp := parse_no_error_of_reads ub (yamlOf ci) ci.cameraModel_
      (model_to_string ci.distortionModel_) ci.distortionModel_ ci.distortionCoeffs_
      ci.K_ k0 k1 k2 k3 ci.resolution_ rfl rfl
      (mapFind_distMap_some s _ (parse_no_error_model ub c ci s hs hci)).2.2 rfl rfl rfl
      (by rw [hK]; exact h0) (by rw [hK]; exact h1) (by rw [hK]; exact h2)
      (by rw [hK]; exact h3)
    rw [hp]
    conv_rhs => rw [hval]
    rw [hval]
  · have h1 := parse_no_error_model ub1 (yamlOf ci) ci1 _ rfl hci1
    rw [(mapFind_distMap_some s _ (parse_no_error_model ub c ci s hs hci)).2.2] at h1
    injection h1 with h1
    exact h1.symm
  · obtain ⟨name, s1, D, K, k0, k1, k2, k3, r, _, _, _, _, _, _, h0, h1, h2, h3, hval⟩ :=
      parse_no_error_inv ub c ci hci
    have hK : ci.K_ = K := by rw [hval]
    rw [hK] at hlen
    match K, hlen, h0, h1, h2, h3, hval, hK with
    | a0 :: a1 :: a2 :: a3 :: tl, _, h0, h1, h2, h3, hval, hK =>
      simp only [vecAt, List.getElem?_cons_zero, List.getElem?_cons_succ,
        Except.ok.injEq] at h0 h1 h2 h3
      subst h0 h1 h2 h3
      have hp := parse_no_error_ok ub1 (yamlOf ci) ci.cameraModel_
        (model_to_string ci.distortionModel_) ci.distortionModel_ ci.distortionCoeffs_
        a0 a1 a2 a3 tl ci.resolution_ rfl rfl
        (mapFind_distMap_some s _ (parse_no_error_model ub c ci s hs hci)).2.2 rfl
        (by rw [← hK]; rfl) rfl
      rw [hp]
      conv_rhs => rw [hval]
      rw [hval]

/-- Witness of C2: RADTAN is written as a name of the table that parses back to RADTAN. -/
theorem model_to_string_round_trip_witness :
    model_to_string RADTAN ≠ "INVALID" ∧
      mapFind distMap (model_to_string RADTAN) = some RADTAN :=
  ⟨(model_to_string_round_trip overrunCrashes RADTAN (Or.inl rfl)).1,
    (model_to_string_round_trip overrunCrashes RADTAN (Or.inl rfl)).2.1⟩

/-- C3, refuted as stated: the block `radtanConfig` names its model "radtan" and parses to
`radtanIntrinsics`, of model RADTAN, for which `writeYaml` writes the line
`distortion_model: plumb_bob`, an alias, and not "radtan". -/
theorem writeYaml_radtan_writes_plumb_bob :
    parse_no_error overrunCrashes radtanConfig = .ok radtanIntrinsics ∧
      radtanIntrinsics.distortionModel_ = RADTAN ∧
      (writeYaml (fun _ => "") (fun _ => "") radtanIntrinsics "")[2]?
        = some "distortion_model: plumb_bob" ∧
      (writeYaml (fun _ => "") (fun _ => "") radtanIntrinsics "")[2]?
        ≠ some "distortion_model: radtan" ∧
      model_to_string RADTAN ≠ "radtan" := by
  refine ⟨?_, rfl, by decide, by decide, by decide⟩
  exact parse_no_error_ok overrunCrashes radtanConfig "pinhole" "radtan" RADTAN [0, 0, 0, 0] 500 501 320 240 []
    [640, 480] rfl rfl (by decide) rfl rfl rfl

/-- C3, amended: for every name `s` that a block is parsed with (an alias of the table,
then), the `distortion_model` line that `writeYaml` writes for that parse carries the first key of `distMap`, in ascending key
order, whose value is the parsed model: "plumb_bob" when the model is RADTAN and "equi" when
it is EQUIDISTANT, never one of "rad_tan", "radtan", "equidistant", "fisheye". That key
resolves to the same model. `distMap` is iterated in strictly ascending key order, and
`model_to_string m`, when some entry has the value `m`, is the key of an entry of value `m`
that no other such key precedes. -/
theorem writeYaml_model_name (s : String) (c : YamlNode R) (ci : CameraIntrinsics R)
    (wd : List R → String) (wi : List Int → String) (pf : String)
    (hs : c.distortion_model = some s) (hci : parse_no_error ub c = .ok ci) :
    s ∈ aliasNames ∧
    (writeYaml wd wi ci pf)[2]?
        = some (pf ++ "distortion_model: " ++ model_to_string ci.distortionModel_) ∧
    (ci.distortionModel_ = RADTAN ∨ ci.distortionModel_ = EQUIDISTANT) ∧
    (ci.distortionModel_ = RADTAN → model_to_string ci.distortionModel_ = "plumb_bob") ∧
    (ci.distortionModel_ = EQUIDISTANT → model_to_string ci.distortionModel_ = "equi") ∧
    model_to_string ci.distortionModel_ ∉ ["rad_tan", "radtan", "equidistant", "fisheye"] ∧
    mapFind distMap (model_to_string ci.distortionModel_) = some ci.distortionModel_ ∧
    List.Pairwise (fun a b => keyLess a.1 b.1 = true) distMap ∧
    (∀ m : DistortionModel, (∃ e ∈ distMap, e.2 = m) →
      (model_to_string m, m) ∈ distMap ∧
      ∀ e ∈ distMap, e.2 = m → keyLess e.1 (model_to_string m) = false) := by
  have hmem := (mapFind_distMap_some s _ (parse_no_error_model ub c ci s hs hci)).1
  have hm := (mapFind_distMap_some s _ (parse_no_error_model ub c ci s hs hci)).2
  refine ⟨hmem, rfl, hm.1, fun h => by rw [h]; decide, fun h => by rw [h]; decide, ?_, hm.2,
    by decide, ?_⟩
  · rcases hm.1 with h | h <;> rw [h] <;> decide
  · intro m ⟨e, he, hem⟩
    have hcases : m = RADTAN ∨ m = EQUIDISTANT := by
      rw [distMap_eq] at he
      simp only [List.mem_cons, List.mem_singleton, List.not_mem_nil, or_false] at he
      rcases he with h | h | h | h | h | h <;> subst h <;> simp [← hem]
    rcases hcases with h | h <;> subst h <;> decide

/-- Witness of the amended C3: the parse of `radtanConfig` is written as "plumb_bob". -/
theorem writeYaml_model_name_witness :
    "radtan" ∈ aliasNames ∧ radtanConfig.distortion_model = some "radtan" ∧
      parse_no_error overrunCrashes radtanConfig = .ok radtanIntrinsics ∧
      (radtanIntrinsics.distortionModel_ = RADTAN →
        model_to_string radtanIntrinsics.distortionModel_ = "plumb_bob") :=
  have hp : parse_no_error overrunCrashes radtanConfig = .ok radtanIntrinsics :=
    parse_no_error_ok overrunCrashes radtanConfig "pinhole" "radtan" RADTAN [0, 0, 0, 0] 500 501 320 240 []
      [640, 480] rfl rfl (by decide) rfl rfl rfl
  ⟨by decide, rfl, hp,
    (writeYaml_model_name overrunCrashes "radtan" radtanConfig radtanIntrinsics (fun _ => "") (fun _ => "") ""
      rfl hp).2.2.2.1⟩

/-- C4, refuted as stated: the block `oversizedConfig`, with a known model, five intrinsics
values and three resolution values, is parsed without error; the value keeps all of them. -/
theorem parse_no_error_accepts_oversized :
    oversizedConfig.intrinsics = some [500, 501, 320, 240, 7] ∧
      oversizedConfig.resolution = some [640, 480, 3] ∧
      parse_no_error overrunCrashes oversizedConfig = .ok
        { cameraModel_ := "pinhole", distortionModel_ := RADTAN,
          distortionCoeffs_ := [0, 0, 0, 0], K_ := [500, 501, 320, 240, 7],
          resolution_ := [640, 480, 3],
          cvK_ := [[500, 0, 320], [0, 501, 240], [0, 0, 1]], cvD_ := [0, 0, 0, 0] } :=
  ⟨rfl, rfl, parse_no_error_ok overrunCrashes oversizedConfig "pinhole" "radtan" RADTAN [0, 0, 0, 0]
    500 501 320 240 [7] [640, 480, 3] rfl rfl (by decide) rfl rfl rfl⟩

/-- C4, amended: `parse_no_error` tests no length. For a block with the five fields present,
a known distortion model and at least four intrinsics values, the call succeeds, whatever
follows the first four values and whatever the length of `resolution`, and whatever a read
past the end would do; the value keeps both sequences as given, its 3x3 matrix is built from
the first four intrinsics, and the reads `K_[0]`, `K_[1]`, `K_[2]`, `K_[3]` are in range. -/
theorem parse_no_error_lengths (c : YamlNode R) (name s : String) (m : DistortionModel)
    (D K : List R) (r : List Int)
    (hname : c.camera_model = some name) (hs : c.distortion_model = some s)
    (hm : mapFind distMap s = some m) (hD : c.distortion_coeffs = some D)
    (hK : c.intrinsics = some K) (hr : c.resolution = some r) (hlen : 4 ≤ K.length) :
    ∃ k0 k1 k2 k3,
      K[0]? = some k0 ∧ K[1]? = some k1 ∧ K[2]? = some k2 ∧ K[3]? = some k3 ∧
      parse_no_error ub c = .ok
        { cameraModel_ := name, distortionModel_ := m, distortionCoeffs_ := D, K_ := K,
          resolution_ := r, cvK_ := [[k0, 0, k2], [0, k1, k3], [0, 0, 1]], cvD_ := D } := by
  match K, hK, hlen with
  | k0 :: k1 :: k2 :: k3 :: tl, hK, _ =>
    exact ⟨k0, k1, k2, k3, by simp, by simp, by simp, by simp,
      parse_no_error_ok ub c name s m D k0 k1 k2 k3 tl r hname hs hm hD hK hr⟩

/-- Witness of the amended C4: the block `oversizedConfig` meets the hypotheses, and its five
intrinsics are enough for the parse to succeed. -/
theorem parse_no_error_lengths_witness :
    oversizedConfig.camera_model = some "pinhole" ∧
      mapFind distMap "radtan" = some RADTAN ∧
      ∃ ci, parse_no_error overrunCrashes oversizedConfig = .ok ci ∧
        ci.resolution_ = [640, 480, 3] := by
  obtain ⟨k0, k1, k2, k3, _, _, _, _, h⟩ :=
    parse_no_error_lengths overrunCrashes oversizedConfig "pinhole" "radtan" RADTAN
      [0, 0, 0, 0] [500, 501, 320, 240, 7] [640, 480, 3] rfl rfl (by decide) rfl rfl rfl
      (by decide)
  exact ⟨rfl, by decide, _, h, rfl⟩

end CameraClaims

/-! ## Properties of the odometry processor -/

namespace Graph

section GraphLemmas

variable {R T : Type}

/-- A call of `addPose` adds no factor and removes no vertex. -/
theorem addPose_factorNoises (g : Graph R T) (t : Nat) (name : String) (isFixed : Bool) :
    (g.addPose t name isFixed).2.factorNoises = g.factorNoises ∧
      g.vertices.length ≤ (g.addPose t name isFixed).2.vertices.length := by
  unfold addPose
  cases g.findPose t name with
  | some d => exact ⟨rfl, le_refl _⟩
  | none => simp [factorNoises, noiseOf]

end GraphLemmas

end Graph

namespace OdometryProcessor

section ProcessLemmas

variable {R T : Type} [LinearOrderedField R]

omit [LinearOrderedField R] in
/-- The graph after `add_body_pose_delta`: the graph before it, with up to two pose vertices
added, then the factor, whose descriptor is returned. -/
theorem add_body_pose_delta_spec (G : Geometry R T) (g : Graph R T) (tPrev tCurr : Nat)
    (body : Body R T) (pwn : PoseWithNoise R T) :
    ∃ g1 : Graph R T, g1.factorNoises = g.factorNoises ∧
      g.vertices.length ≤ g1.vertices.length ∧
      (add_body_pose_delta G g tPrev tCurr body pwn).2.vertices = g1.vertices ++
        [.relativePosePrior tCurr tPrev pwn (G.body_name body.getName)] ∧
      (add_body_pose_delta G g tPrev tCurr body pwn).1 = some g1.vertices.length := by
  unfold add_body_pose_delta
  simp only [Graph.addToGraph]
  refine ⟨_, ?_, ?_, rfl, rfl⟩
  · split_ifs <;> simp [Graph.addPose_factorNoises]
  · split_ifs
    · exact le_trans (Graph.addPose_factorNoises g _ _ _).2 (Graph.addPose_factorNoises _ _ _ _).2
    · exact (Graph.addPose_factorNoises g _ _ _).2
    · exact (Graph.addPose_factorNoises g _ _ _).2
    · exact le_refl _

/-- The members that `updateStatistics` leaves alone. -/
theorem updateStatistics_keeps (G : Geometry R T) (s : OdometryProcessor R T) (t : Nat) (d : T) :
    (updateStatistics G s t d).time_ = s.time_ ∧ (updateStatistics G s t d).body_ = s.body_ ∧
    (updateStatistics G s t d).pose_ = s.pose_ ∧
    (updateStatistics G s t d).lastVelocity_ = s.lastVelocity_ ∧
    (updateStatistics G s t d).lastOmega_ = s.lastOmega_ ∧
    (updateStatistics G s t d).accelerationNoiseMin_ = s.accelerationNoiseMin_ ∧
    (updateStatistics G s t d).accelerationNoiseMax_ = s.accelerationNoiseMax_ ∧
    (updateStatistics G s t d).angularAccelerationNoiseMin_ = s.angularAccelerationNoiseMin_ ∧
    (updateStatistics G s t d).angularAccelerationNoiseMax_ = s.angularAccelerationNoiseMax_ ∧
    (updateStatistics G s t d).rotationNoise_ = s.rotationNoise_ ∧
    (updateStatistics G s t d).translationNoise_ = s.translationNoise_ ∧
    (updateStatistics G s t d).T_body_odom_ = s.T_body_odom_ := by
  unfold updateStatistics
  simp only
  split_ifs <;> simp

/-- A call of `process` in the state UNINITIALIZED (`time_ == 0`): no factor, no change of
the graph; the pose and the time are stored and the velocities are zeroed. -/
theorem process_of_time_zero (G : Geometry R T) (s : OdometryProcessor R T) (t : Nat)
    (g : Graph R T) (msg : Odometry R) (fs : List VertexDesc) (h : s.time_ = 0) :
    process G s t g msg fs =
      ({ s with pub_ := s.pub_ ++ [{ msg with frame_id := "map", stamp := t }],
                lastOmega_ := Vec3.zero, lastVelocity_ := Vec3.zero,
                pose_ := to_pose G msg, time_ := t }, g, fs) := by
  simp [process, h]

/-- A call of `process` in the state TRACKING (`time_ != 0`), unfolded. -/
theorem process_of_time_ne_zero (G : Geometry R T) (s : OdometryProcessor R T) (t : Nat)
    (g : Graph R T) (msg : Odometry R) (fs : List VertexDesc) (h : s.time_ ≠ 0)
    (s0 : OdometryProcessor R T) (d : T) (r : PoseNoise R × OdometryProcessor R T)
    (hs0 : s0 = { s with pub_ := s.pub_ ++ [{ msg with frame_id := "map", stamp := t }] })
    (hd : d = deltaPoseOf G s.T_body_odom_ s.pose_ (to_pose G msg))
    (hr : r = if s.rotationNoise_ ≤ 0 ∨ s.translationNoise_ ≤ 0 then
        makeAdaptiveNoise G s0 t d
      else (PoseNoise.make s.rotationNoise_ s.translationNoise_, s0)) :
    process G s t g msg fs =
      ({ updateStatistics G r.2 t d with pose_ := to_pose G msg, time_ := t },
        (add_body_pose_delta G g s.time_ t s.body_ ⟨d, r.1, true⟩).2,
        fs ++ [(add_body_pose_delta G g s.time_ t s.body_ ⟨d, r.1, true⟩).1]) := by
  subst hs0 hd hr
  simp only [process, if_neg h]
  split_ifs <;> simp [updateStatistics_keeps, makeAdaptiveNoise]

/-- Every call of `process` stores its timestamp. -/
theorem process_time (G : Geometry R T) (s : OdometryProcessor R T) (t : Nat)
    (g : Graph R T) (msg : Odometry R) (fs : List VertexDesc) :
    (process G s t g msg fs).1.time_ = t := by
  by_cases h : s.time_ = 0
  · rw [process_of_time_zero G s t g msg fs h]
  · rw [process_of_time_ne_zero G s t g msg fs h _ _ _ rfl rfl rfl]

/-- The list of factors after a call of `process`: one descriptor more exactly when the
stored `time_` is not 0. -/
theorem process_factors (G : Geometry R T) (s : OdometryProcessor R T) (t : Nat)
    (g : Graph R T) (msg : Odometry R) (fs : List VertexDesc) :
    (s.time_ = 0 → (process G s t g msg fs).2.2 = fs) ∧
      (s.time_ ≠ 0 → ∃ fac, (process G s t g msg fs).2.2 = fs ++ [fac]) := by
  constructor
  · intro h
    rw [process_of_time_zero G s t g msg fs h]
  · intro h
    rw [process_of_time_ne_zero G s t g msg fs h _ _ _ rfl rfl rfl]
    exact ⟨_, rfl⟩

/-- A run over a concatenation is the run over the second part after the first. -/
theorem processAll_append (G : Geometry R T)
    (st : OdometryProcessor R T × Graph R T × List VertexDesc)
    (a b : List (Nat × Odometry R)) :
    processAll G st (a ++ b) = processAll G (processAll G st a) b := by
  induction a generalizing st with
  | nil => rfl
  | cons m rest ih =>
    obtain ⟨t, msg⟩ := m
    simp only [List.cons_append, processAll]
    exact ih _

/-- After a non-empty run the stored time is the last timestamp. -/
theorem processAll_time (G : Geometry R T)
    (st : OdometryProcessor R T × Graph R T × List VertexDesc)
    (pre : List (Nat × Odometry R)) (m : Nat × Odometry R) :
    (processAll G st (pre ++ [m])).1.time_ = m.1 := by
  rw [processAll_append]
  obtain ⟨t, msg⟩ := m
  simp only [processAll]
  exact process_time G _ t _ msg _

/-- The number of factors that a run with non-zero timestamps appends. -/
theorem processAll_count (G : Geometry R T) (msgs : List (Nat × Odometry R))
    (st : OdometryProcessor R T × Graph R T × List VertexDesc)
    (hpos : ∀ m ∈ msgs, m.1 ≠ 0) :
    (processAll G st msgs).2.2.length =
      st.2.2.length + (if st.1.time_ = 0 then msgs.length - 1 else msgs.length) := by
  induction msgs generalizing st with
  | nil => simp [processAll]
  | cons m rest ih =>
    obtain ⟨t, msg⟩ := m
    have ht : t ≠ 0 := hpos (t, msg) (List.mem_cons_self _ _)
    have hrest : ∀ m ∈ rest, m.1 ≠ 0 := fun m hm => hpos m (List.mem_cons_of_mem _ hm)
    simp only [processAll]
    rw [ih _ hrest, process_time, if_neg ht]
    by_cases h : st.1.time_ = 0
    · rw [(process_factors G st.1 t st.2.1 msg st.2.2).1 h, if_pos h]
      simp
    · obtain ⟨fac, hfac⟩ := (process_factors G st.1 t st.2.1 msg st.2.2).2 h
      rw [hfac, if_neg h]
      simp
      omega

end ProcessLemmas

end OdometryProcessor

/-- The clamp `std::min(std::max(d, lo), hi)` for `lo <= hi`. -/
theorem clamp_facts {R : Type} [LinearOrderedField R] (d lo hi : R) (h : lo ≤ hi) :
    lo ≤ min (max d lo) hi ∧ min (max d lo) hi ≤ hi ∧
      (lo ≤ d → d ≤ hi → min (max d lo) hi = d) ∧ (d ≤ lo → min (max d lo) hi = lo) ∧
      (hi ≤ d → min (max d lo) hi = hi) := by
  refine ⟨le_min (le_max_right _ _) h, min_le_right _ _, ?_, ?_, ?_⟩
  · intro h1 h2
    rw [max_eq_left h1, min_eq_left h2]
  · intro h1
    rw [max_eq_right h1, min_eq_left h]
  · intro h1
    exact min_eq_right (le_trans h1 (le_max_left _ _))

namespace OdometryProcessor

section StepLemmas

variable {R T : Type} [LinearOrderedField R]

/-- The noise of `makeAdaptiveNoise` does not depend on the publisher. -/
theorem makeAdaptiveNoise_pub (G : Geometry R T) (s : OdometryProcessor R T) (t : Nat) (d : T)
    (pub : List (Odometry R)) :
    (makeAdaptiveNoise G { s with pub_ := pub } t d).1 = (makeAdaptiveNoise G s t d).1 ∧
    (makeAdaptiveNoise G { s with pub_ := pub } t d).2.lastVelocity_ =
      (makeAdaptiveNoise G s t d).2.lastVelocity_ ∧
    (makeAdaptiveNoise G { s with pub_ := pub } t d).2.lastOmega_ =
      (makeAdaptiveNoise G s t d).2.lastOmega_ ∧
    (makeAdaptiveNoise G { s with pub_ := pub } t d).2.config = s.config ∧
    (makeAdaptiveNoise G { s with pub_ := pub } t d).2.time_ = s.time_ :=
  ⟨rfl, rfl, rfl, rfl, rfl⟩

/-- A call of `process` in the state TRACKING: the factor is the vertex added last, its
descriptor is appended to the list, and the choice of the noise is the one of lines
150-155. -/
theorem process_tracking (G : Geometry R T) (s : OdometryProcessor R T) (t : Nat)
    (g : Graph R T) (msg : Odometry R) (fs : List VertexDesc) (h : s.time_ ≠ 0)
    (d : T) (hd : d = deltaPoseOf G s.T_body_odom_ s.pose_ (to_pose G msg)) :
    ∃ (pn : PoseNoise R) (g1 : Graph R T),
      g1.factorNoises = g.factorNoises ∧ g.vertices.length ≤ g1.vertices.length ∧
      (process G s t g msg fs).2.1.vertices = g1.vertices ++
        [.relativePosePrior t s.time_ ⟨d, pn, true⟩ (G.body_name s.body_.getName)] ∧
      (process G s t g msg fs).2.2 = fs ++ [some g1.vertices.length] ∧
      (process G s t g msg fs).2.1.factorNoises = g.factorNoises ++ [pn] ∧
      (process G s t g msg fs).1.time_ = t ∧
      (process G s t g msg fs).1.pose_ = to_pose G msg ∧
      (process G s t g msg fs).1.config = s.config ∧
      (s.rotationNoise_ ≤ 0 ∨ s.translationNoise_ ≤ 0 →
        pn = (makeAdaptiveNoise G s t d).1 ∧
        (process G s t g msg fs).1.lastVelocity_ = (makeAdaptiveNoise G s t d).2.lastVelocity_ ∧
        (process G s t g msg fs).1.lastOmega_ = (makeAdaptiveNoise G s t d).2.lastOmega_) ∧
      (0 < s.rotationNoise_ ∧ 0 < s.translationNoise_ →
        pn = PoseNoise.make s.rotationNoise_ s.translationNoise_ ∧
        (process G s t g msg fs).1.lastVelocity_ = s.lastVelocity_ ∧
        (process G s t g msg fs).1.lastOmega_ = s.lastOmega_) := by
  obtain ⟨s0, hs0⟩ : ∃ s0 : OdometryProcessor R T,
      s0 = { s with pub_ := s.pub_ ++ [{ msg with frame_id := "map", stamp := t }] } := ⟨_, rfl⟩
  obtain ⟨r, hr⟩ : ∃ r : PoseNoise R × OdometryProcessor R T,
      r = if s.rotationNoise_ ≤ 0 ∨ s.translationNoise_ ≤ 0 then makeAdaptiveNoise G s0 t d
        else (PoseNoise.make s.rotationNoise_ s.translationNoise_, s0) := ⟨_, rfl⟩
  have hp := process_of_time_ne_zero G s t g msg fs h s0 d r hs0 hd hr
  obtain ⟨g1, hg1, hlen, hv, hdesc⟩ :=
    add_body_pose_delta_spec G g s.time_ t s.body_ ⟨d, r.1, true⟩
  have hk := updateStatistics_keeps G r.2 t d
  have hpub := makeAdaptiveNoise_pub G s t d
    (s.pub_ ++ [{ msg with frame_id := "map", stamp := t }])
  rw [← hs0] at hpub
  have hv1 : (process G s t g msg fs).1.lastVelocity_ = r.2.lastVelocity_ := by
    rw [hp]; exact hk.2.2.2.1
  have hw1 : (process G s t g msg fs).1.lastOmega_ = r.2.lastOmega_ := by
    rw [hp]; exact hk.2.2.2.2.1
  refine ⟨r.1, g1, hg1, hlen, ?_, ?_, ?_, ?_, ?_, ?_, ?_, ?_⟩
  · rw [hp]; exact hv
  · rw [hp, hdesc]
  · rw [hp]
    simp only [Graph.factorNoises] at hg1 ⊢
    rw [hv, List.filterMap_append, hg1]
    rfl
  · rw [hp]
  · rw [hp]
  · rw [hp]
    have hc : r.2.config = s.config := by
      rw [hr]
      split_ifs
      · exact hpub.2.2.2.1
      · rw [hs0]; rfl
    simp only [config] at hc ⊢
    simp only [hk]
    exact hc
  · intro hadapt
    rw [hv1, hw1, hr, if_pos hadapt]
    exact ⟨hpub.1, hpub.2.1, hpub.2.2.1⟩
  · intro hfixed
    have hnot : ¬ (s.rotationNoise_ ≤ 0 ∨ s.translationNoise_ ≤ 0) := by
      rintro (h1 | h1)
      · exact absurd hfixed.1 (not_lt.mpr h1)
      · exact absurd hfixed.2 (not_lt.mpr h1)
    rw [hv1, hw1, hr, if_neg hnot, hs0]
    exact ⟨rfl, rfl, rfl⟩

end StepLemmas

end OdometryProcessor

namespace OdometryProcessor

section RunLemmas

variable {R T : Type} [LinearOrderedField R]

/-- The interval `dt` for a step of at least one millisecond between `uint64` timestamps. -/
theorem adaptiveDt_step (t0 step : Nat) (hstep : 1000000 ≤ step) (hb : t0 + step < 2 ^ 64) :
    (adaptiveDt (t0 + step) t0 : R) = (step : R) * (1 / 1000000000) := by
  have hel : elapsed (t0 + step) t0 = step := by
    unfold elapsed
    have h1 : t0 + step + 2 ^ 64 - t0 = step + 2 ^ 64 := by omega
    rw [h1, Nat.add_mod_right]
    exact Nat.mod_eq_of_lt (by omega)
  rw [adaptiveDt, hel]
  apply max_eq_left
  have h2 : ((1000000 : Nat) : R) ≤ (step : R) := Nat.cast_le.mpr hstep
  have h3 : ((1000000 : Nat) : R) = 1000000 := by norm_num
  rw [h3] at h2
  calc (1 / 1000 : R) = 1000000 * (1 / 1000000000) := by norm_num
    _ ≤ (step : R) * (1 / 1000000000) := mul_le_mul_of_nonneg_right h2 (by norm_num)

/-- The deviation from the constant-velocity prediction is the zero vector when the stored
velocity is the one of a step with the same `dx` and `dt`. -/
theorem sub_scale_scale (dx : Vec3 R) (dt : R) (hdt : dt ≠ 0) :
    Vec3.sub dx (Vec3.scale (Vec3.scale dx (1 / dt)) dt) = Vec3.zero := by
  simp only [Vec3.sub, Vec3.scale, Vec3.zero]
  have h : ∀ a : R, a - a * (1 / dt) * dt = 0 := by
    intro a
    field_simp
  rw [h, h, h]

/-- The deviation from the prediction of a zero velocity is the step itself. -/
theorem sub_scale_zero (dx : Vec3 R) (dt : R) :
    Vec3.sub dx (Vec3.scale Vec3.zero dt) = dx := by
  simp [Vec3.sub, Vec3.scale, Vec3.zero]

/-- The translational noise of an adaptive step at constant velocity, after a step with the
same `dx` and `dt`: the floor `min * dt^2`. -/
theorem makeAdaptiveNoise_constant_velocity (G : Geometry R T) (s : OdometryProcessor R T)
    (step : Nat) (d : T) (dx : Vec3 R)
    (hstep : 1000000 ≤ step) (hb : s.time_ + step < 2 ^ 64)
    (hdx : G.translation d = dx)
    (hv : s.lastVelocity_ = Vec3.scale dx (1 / ((step : R) * (1 / 1000000000))))
    (hsqrt : G.sqrt 0 = 0) (hmin : 0 < s.accelerationNoiseMin_)
    (hmm : s.accelerationNoiseMin_ ≤ s.accelerationNoiseMax_) :
    (makeAdaptiveNoise G s (s.time_ + step) d).1.translational =
        s.accelerationNoiseMin_ *
          ((step : R) * (1 / 1000000000) * ((step : R) * (1 / 1000000000))) ∧
      (makeAdaptiveNoise G s (s.time_ + step) d).2.lastVelocity_ =
        Vec3.scale dx (1 / ((step : R) * (1 / 1000000000))) := by
  have hdt := adaptiveDt_step (R := R) s.time_ step hstep hb
  have hpos : (0 : R) < (step : R) * (1 / 1000000000) := by
    have : (0 : R) < (step : R) := Nat.cast_pos.mpr (by omega)
    positivity
  simp only [makeAdaptiveNoise, PoseNoise.make, hdt, hdx, hv, and_true]
  rw [sub_scale_scale dx _ (ne_of_gt hpos)]
  have hz : Vec3.norm G.sqrt (Vec3.zero : Vec3 R) = 0 := by
    simp [Vec3.norm, Vec3.squaredNorm, Vec3.zero, hsqrt]
  rw [hz]
  have hlo : (0 : R) ≤ s.accelerationNoiseMin_ *
      ((step : R) * (1 / 1000000000) * ((step : R) * (1 / 1000000000))) :=
    mul_nonneg (le_of_lt hmin) (mul_self_nonneg _)
  rw [max_eq_right hlo]
  exact min_eq_left (mul_le_mul_of_nonneg_right hmm (mul_self_nonneg _))

/-- The translational noise of the first adaptive step, where the stored velocity is zero:
the clamp of the length of the step. -/
theorem makeAdaptiveNoise_first_step (G : Geometry R T) (s : OdometryProcessor R T)
    (step : Nat) (d : T) (dx : Vec3 R)
    (hstep : 1000000 ≤ step) (hb : s.time_ + step < 2 ^ 64)
    (hdx : G.translation d = dx) (hv : s.lastVelocity_ = Vec3.zero) :
    (makeAdaptiveNoise G s (s.time_ + step) d).1.translational =
        min (max (Vec3.norm G.sqrt dx) (s.accelerationNoiseMin_ *
            ((step : R) * (1 / 1000000000) * ((step : R) * (1 / 1000000000)))))
          (s.accelerationNoiseMax_ *
            ((step : R) * (1 / 1000000000) * ((step : R) * (1 / 1000000000)))) ∧
      (makeAdaptiveNoise G s (s.time_ + step) d).2.lastVelocity_ =
        Vec3.scale dx (1 / ((step : R) * (1 / 1000000000))) := by
  have hdt := adaptiveDt_step (R := R) s.time_ step hstep hb
  simp only [makeAdaptiveNoise, PoseNoise.make, hdt, hdx, hv, sub_scale_zero, and_self]

omit [LinearOrderedField R] in
/-- The run over `n + 2` samples is the run over `n + 1` samples, then the last one. -/
theorem uniformRun_succ (t0 step : Nat) (msg : Nat → Odometry R) (n : Nat) :
    uniformRun t0 step msg (n + 1) =
      uniformRun t0 step msg n ++ [(t0 + (n + 1) * step, msg (n + 1))] := by
  simp [uniformRun, List.range_succ]

omit [LinearOrderedField R] in
/-- A run whose first timestamp is 0: the sample at time 0, then a run that starts one step
later. -/
theorem uniformRun_zero (step : Nat) (msg : Nat → Odometry R) (m : Nat) :
    uniformRun 0 step msg (m + 1) =
      (0, msg 0) :: uniformRun step step (fun i => msg (i + 1)) m := by
  have h : ∀ i : Nat, 0 + (i + 1) * step = step + i * step := by
    intro i
    rw [Nat.succ_mul]
    omega
  simp only [uniformRun]
  rw [List.range_succ_eq_map, List.map_cons, List.map_map]
  simp only [Nat.zero_mul, Nat.add_zero, List.cons.injEq, true_and]
  apply List.map_congr_left
  intro i _
  simp only [Function.comp_apply, Nat.succ_eq_add_one, h]

end RunLemmas

end OdometryProcessor

namespace OdometryProcessor

section ConstantVelocity

variable {R T : Type} [LinearOrderedField R]

/-- The state of a run at constant velocity after the samples `0 .. k + 1`, the first one at
a time that is not 0, of a processor in adaptive mode whose stored time is 0: the first
factor carries the clamp of the length of the step, every later one the floor. -/
theorem constant_velocity_run (G : Geometry R T) (s0 : OdometryProcessor R T)
    (g : Graph R T) (fs : List VertexDesc) (t0 step n : Nat) (msg : Nat → Odometry R)
    (dx : Vec3 R)
    (hs0 : s0.time_ = 0)
    (hadapt : s0.rotationNoise_ ≤ 0 ∨ s0.translationNoise_ ≤ 0)
    (hmin : 0 < s0.accelerationNoiseMin_)
    (hmm : s0.accelerationNoiseMin_ ≤ s0.accelerationNoiseMax_)
    (ht0 : t0 ≠ 0) (hstep : 1000000 ≤ step) (hb : t0 + n * step < 2 ^ 64)
    (hdx : ∀ i, i < n → G.translation (deltaPoseOf G s0.T_body_odom_
      (to_pose G (msg i)) (to_pose G (msg (i + 1)))) = dx)
    (hsqrt : G.sqrt 0 = 0) (k : Nat) (hk : k + 1 ≤ n) :
    ∃ (first : PoseNoise R) (rest : List (PoseNoise R)),
      (processAll G (s0, g, fs)
        (uniformRun t0 step msg (k + 1))).2.1.factorNoises = g.factorNoises ++ first :: rest ∧
      rest.length = k ∧
      first.translational =
        min (max (Vec3.norm G.sqrt dx) (s0.accelerationNoiseMin_ *
            ((step : R) * (1 / 1000000000) * ((step : R) * (1 / 1000000000)))))
          (s0.accelerationNoiseMax_ *
            ((step : R) * (1 / 1000000000) * ((step : R) * (1 / 1000000000)))) ∧
      (∀ pn ∈ rest, pn.translational = s0.accelerationNoiseMin_ *
        ((step : R) * (1 / 1000000000) * ((step : R) * (1 / 1000000000)))) ∧
      (processAll G (s0, g, fs) (uniformRun t0 step msg (k + 1))).1.time_ =
        t0 + (k + 1) * step ∧
      (processAll G (s0, g, fs) (uniformRun t0 step msg (k + 1))).1.pose_ =
        to_pose G (msg (k + 1)) ∧
      (processAll G (s0, g, fs)
        (uniformRun t0 step msg (k + 1))).1.lastVelocity_ =
          Vec3.scale dx (1 / ((step : R) * (1 / 1000000000))) ∧
      (processAll G (s0, g, fs) (uniformRun t0 step msg (k + 1))).1.config =
        s0.config := by
  have hmul : ∀ j, j ≤ n → t0 + j * step < 2 ^ 64 := by
    intro j hj
    have : j * step ≤ n * step := Nat.mul_le_mul_right _ hj
    omega
  induction k with
  | zero =>
    obtain ⟨s1, hs1⟩ : ∃ s1, s1 = (process G s0 (t0 + 0 * step) g (msg 0) fs).1 :=
      ⟨_, rfl⟩
    have hp1 := process_of_time_zero G s0 (t0 + 0 * step) g (msg 0) fs hs0
    have hrun : processAll G (s0, g, fs) (uniformRun t0 step msg (0 + 1)) =
        process G s1 (t0 + 1 * step) g (msg 1) fs := by
      rw [hs1]
      simp only [uniformRun, List.range_succ, List.range_zero, List.nil_append,
        List.map_cons, List.map_nil, List.cons_append, processAll, zero_add, hp1]
    have hs1t : s1.time_ = t0 := by rw [hs1, hp1]; simp
    have hs1p : s1.pose_ = to_pose G (msg 0) := by rw [hs1, hp1]
    have hs1v : s1.lastVelocity_ = Vec3.zero := by rw [hs1, hp1]
    have hs1c : s1.config = s0.config := by rw [hs1, hp1]; rfl
    have hcfg := hs1c
    simp only [config, Prod.mk.injEq] at hcfg
    obtain ⟨hbody, hamin, -, hamax, -, hrot, htr, htf⟩ := hcfg
    obtain ⟨pn, g1, -, -, -, -, hfn, htime, hpose, hconf, had, -⟩ :=
      process_tracking G s1 (t0 + 1 * step) g (msg 1) fs (by rw [hs1t]; exact ht0) _ rfl
    have hadapt1 : s1.rotationNoise_ ≤ 0 ∨ s1.translationNoise_ ≤ 0 := by
      rw [hrot, htr]; exact hadapt
    obtain ⟨hpn, hvel, -⟩ := had hadapt1
    have hd : G.translation (deltaPoseOf G s1.T_body_odom_ s1.pose_ (to_pose G (msg 1))) = dx := by
      rw [htf, hs1p]; exact hdx 0 (by omega)
    have hfirst := makeAdaptiveNoise_first_step G s1 step _ dx hstep
      (by rw [hs1t]; have := hmul 1 (by omega); omega) hd hs1v
    have htt : t0 + 1 * step = s1.time_ + step := by rw [hs1t]; omega
    rw [hrun]
    refine ⟨pn, [], hfn, rfl, ?_, by simp, ?_, hpose, ?_, hconf.trans hs1c⟩
    · rw [hpn, htt, hfirst.1, hamin, hamax]
    · rw [htime]
    · rw [hvel, htt, hfirst.2]
  | succ k ih =>
    obtain ⟨first, rest, hfn0, hlen, hfirst, hrest, htime0, hpose0, hvel0, hconf0⟩ :=
      ih (by omega)
    obtain ⟨st, hst⟩ : ∃ st, st = processAll G (s0, g, fs)
        (uniformRun t0 step msg (k + 1)) := ⟨_, rfl⟩
    rw [← hst] at hfn0 htime0 hpose0 hvel0 hconf0
    have hrun : processAll G (s0, g, fs) (uniformRun t0 step msg (k + 1 + 1)) =
        process G st.1 (t0 + (k + 1 + 1) * step) st.2.1 (msg (k + 1 + 1)) st.2.2 := by
      rw [uniformRun_succ, processAll_append, ← hst]
      rfl
    have hcfg := hconf0
    simp only [config, Prod.mk.injEq] at hcfg
    obtain ⟨hbody, hamin, -, hamax, -, hrot, htr, htf⟩ := hcfg
    have hne : st.1.time_ ≠ 0 := by rw [htime0]; omega
    obtain ⟨pn, g1, -, -, -, -, hfn, htime, hpose, hconf, had, -⟩ :=
      process_tracking G st.1 (t0 + (k + 1 + 1) * step) st.2.1 (msg (k + 1 + 1)) st.2.2 hne _ rfl
    have hadapt1 : st.1.rotationNoise_ ≤ 0 ∨ st.1.translationNoise_ ≤ 0 := by
      rw [hrot, htr]; exact hadapt
    obtain ⟨hpn, hvel, -⟩ := had hadapt1
    have hd : G.translation
        (deltaPoseOf G st.1.T_body_odom_ st.1.pose_ (to_pose G (msg (k + 1 + 1)))) = dx := by
      rw [htf, hpose0]; exact hdx (k + 1) (by omega)
    have htt : t0 + (k + 1 + 1) * step = st.1.time_ + step := by
      rw [htime0]; ring
    have hnext := makeAdaptiveNoise_constant_velocity G st.1 step _ dx hstep
      (by rw [← htt]; exact hmul (k + 1 + 1) hk) hd hvel0 hsqrt
      (by rw [hamin]; exact hmin) (by rw [hamin, hamax]; exact hmm)
    rw [hrun]
    refine ⟨first, rest ++ [pn], ?_, by simp [hlen], hfirst, ?_, ?_, hpose, ?_,
      hconf.trans hconf0⟩
    · rw [hfn, hfn0]; simp
    · intro q hq
      rcases List.mem_append.mp hq with hq | hq
      · exact hrest q hq
      · rw [List.mem_singleton] at hq
        rw [hq, hpn, htt, hnext.1, hamin]
    · rw [htime]
    · rw [hvel, htt, hnext.2]

end ConstantVelocity

end OdometryProcessor

namespace OdometryProcessor

section StatisticsLemmas

variable {R T : Type} [LinearOrderedField R]

/-- The sums after one call of `updateStatistics`. -/
theorem updateStatistics_sums (G : Geometry R T) (s : OdometryProcessor R T) (t : Nat) (d : T) :
    (updateStatistics G s t d).count_ = s.count_ + 1 ∧
    (updateStatistics G s t d).lenSum_ =
      s.lenSum_ + G.sqrt (Vec3.squaredNorm (G.translation d)) ∧
    (updateStatistics G s t d).len2Sum_ = s.len2Sum_ + Vec3.squaredNorm (G.translation d) ∧
    (updateStatistics G s t d).angSum_ = s.angSum_ + G.angle d ∧
    (updateStatistics G s t d).ang2Sum_ = s.ang2Sum_ + G.angle d * G.angle d := by
  unfold updateStatistics
  simp only
  split_ifs <;> simp

/-- The sums after the calls of `updateStatistics` for a list of transforms. -/
theorem updateStatisticsAll_sums (G : Geometry R T) (ds : List (Nat × T))
    (s : OdometryProcessor R T) :
    (updateStatisticsAll G s ds).count_ = s.count_ + ds.length ∧
    (updateStatisticsAll G s ds).lenSum_ = s.lenSum_ +
      (ds.map (fun d => G.sqrt (Vec3.squaredNorm (G.translation d.2)))).sum ∧
    (updateStatisticsAll G s ds).len2Sum_ = s.len2Sum_ +
      (ds.map (fun d => Vec3.squaredNorm (G.translation d.2))).sum ∧
    (updateStatisticsAll G s ds).angSum_ = s.angSum_ + (ds.map (fun d => G.angle d.2)).sum ∧
    (updateStatisticsAll G s ds).ang2Sum_ = s.ang2Sum_ +
      (ds.map (fun d => G.angle d.2 * G.angle d.2)).sum := by
  induction ds generalizing s with
  | nil => simp [updateStatisticsAll]
  | cons d rest ih =>
    have h := updateStatistics_sums G s d.1 d.2
    have h2 := ih (updateStatistics G s d.1 d.2)
    simp only [updateStatisticsAll, List.foldl_cons] at h2 ⊢
    simp only [h2, h, List.map_cons, List.sum_cons, List.length_cons]
    refine ⟨by omega, ?_, ?_, ?_, ?_⟩ <;> ring

/-- The sum of the squared deviations from any `m`. -/
theorem sum_sq_dev (xs : List R) (m : R) :
    (xs.map (fun x => (x - m) * (x - m))).sum =
      (xs.map (fun x => x * x)).sum - 2 * m * xs.sum + (xs.length : R) * (m * m) := by
  induction xs with
  | nil => simp
  | cons x rest ih =>
    simp only [List.map_cons, List.sum_cons, List.length_cons, ih]
    push_cast
    ring

/-- The variance as `finalize` computes it, from the sum and the sum of squares, is the mean
of the squared deviations from the mean, and is not negative. -/
theorem variance_identity (xs : List R) (hne : xs ≠ []) (m : R)
    (hm : m = xs.sum * (1 / (xs.length : R))) :
    1 / (xs.length : R) * ((xs.map (fun x => x * x)).sum - m * m * (xs.length : R)) =
        1 / (xs.length : R) * (xs.map (fun x => (x - m) * (x - m))).sum ∧
      0 ≤ 1 / (xs.length : R) * (xs.map (fun x => (x - m) * (x - m))).sum := by
  have hn : (0 : R) < (xs.length : R) := Nat.cast_pos.mpr (List.length_pos.mpr hne)
  have hS : xs.sum = m * (xs.length : R) := by
    rw [hm]
    field_simp
  constructor
  · rw [sum_sq_dev, hS]
    ring
  · apply mul_nonneg (le_of_lt (one_div_pos.mpr hn))
    apply List.sum_nonneg
    intro y hy
    obtain ⟨x, _, rfl⟩ := List.mem_map.mp hy
    exact mul_self_nonneg _

end StatisticsLemmas

end OdometryProcessor

namespace OdometryProcessor

section OdometryClaims

variable {R T : Type} [LinearOrderedField R]

/-- C5, refuted as stated: two calls of `process` on a new processor, the first with the
timestamp 0, append no factor at all, where the claim has one. -/
theorem process_first_timestamp_zero :
    (processAll translationGeometry (create adaptiveBody ⟨0, 0, 0⟩, emptyGraph, [])
      [(0, odomAt 0), (5, odomAt 1)]).2.2 = [] ∧
    (processAll translationGeometry (create adaptiveBody ⟨0, 0, 0⟩, emptyGraph, [])
      [(0, odomAt 0), (5, odomAt 1)]).2.2.length ≠ 2 - 1 := by
  have h : (processAll translationGeometry (create adaptiveBody ⟨0, 0, 0⟩, emptyGraph, [])
      [(0, odomAt 0), (5, odomAt 1)]).2.2 = [] := by
    simp [processAll, process, create]
  rw [h]
  exact ⟨rfl, by decide⟩

/-- C5, amended: for every sequence of n >= 1 calls of `process` on a new processor whose
timestamps are all different from 0, the first call appends no factor and every later call
appends exactly one, so that the n calls append n - 1 factors. The code takes a call for the
first one by the test `time_ == 0`: a call appends no factor when the stored timestamp is 0
and exactly one when it is not. -/
theorem process_factor_count (G : Geometry R T) (body : Body R T) (pose0 : T)
    (g : Graph R T) (fs : List VertexDesc) (msgs : List (Nat × Odometry R))
    (hne : msgs ≠ []) (hpos : ∀ m ∈ msgs, m.1 ≠ 0) :
    (∀ m post, msgs = m :: post →
      (processAll G (create body pose0, g, fs) [m]).2.2 = fs) ∧
    (∀ pre m post, pre ≠ [] → msgs = pre ++ m :: post →
      ∃ fac, (processAll G (create body pose0, g, fs) (pre ++ [m])).2.2 =
        (processAll G (create body pose0, g, fs) pre).2.2 ++ [fac]) ∧
    (processAll G (create body pose0, g, fs) msgs).2.2.length + 1 = fs.length + msgs.length ∧
    (∀ (s : OdometryProcessor R T) (t : Nat) (g1 : Graph R T) (msg : Odometry R)
        (fs1 : List VertexDesc),
      (s.time_ = 0 → (process G s t g1 msg fs1).2.2 = fs1) ∧
      (s.time_ ≠ 0 → ∃ fac, (process G s t g1 msg fs1).2.2 = fs1 ++ [fac])) := by
  refine ⟨?_, ?_, ?_, fun s t g1 msg fs1 => process_factors G s t g1 msg fs1⟩
  · intro m post _
    obtain ⟨t, msg⟩ := m
    simp only [processAll]
    exact (process_factors G _ t g msg fs).1 rfl
  · intro pre m post hpre hmsgs
    obtain ⟨t, msg⟩ := m
    rw [processAll_append]
    simp only [processAll]
    apply (process_factors G _ t _ msg _).2
    obtain ⟨pre1, m1, rfl⟩ : ∃ pre1 m1, pre = pre1 ++ [m1] :=
      ⟨pre.dropLast, pre.getLast hpre, (List.dropLast_append_getLast hpre).symm⟩
    rw [processAll_time]
    apply hpos
    rw [hmsgs]
    simp
  · have h := processAll_count G msgs (create body pose0, g, fs) hpos
    have hlen : 0 < msgs.length := List.length_pos.mpr hne
    rw [h]
    simp only [create, if_true]
    omega

/-- Witness of the amended C5: three calls at the timestamps 1, 2, 3 append two factors. -/
theorem process_factor_count_witness :
    (processAll translationGeometry (create adaptiveBody ⟨0, 0, 0⟩, emptyGraph, [])
      [(1, odomAt 0), (2, odomAt 1), (3, odomAt 2)]).2.2.length + 1 = 0 + 3 :=
  (process_factor_count translationGeometry adaptiveBody ⟨0, 0, 0⟩ emptyGraph []
    [(1, odomAt 0), (2, odomAt 1), (3, odomAt 2)] (by simp) (by simp)).2.2.1


/-- C6, refuted as stated: with the previous timestamp 2 and the current timestamp 1 (a
negative interval) the unsigned difference is 2^64 - 1, and `dt` is that many nanoseconds,
not the floor 0.001 s. -/
theorem adaptiveDt_negative_interval :
    elapsed 1 2 = 18446744073709551615 ∧
      (adaptiveDt 1 2 : ℚ) = 18446744073709551615 / 1000000000 ∧
      (adaptiveDt 1 2 : ℚ) ≠ 1 / 1000 := by
  have h : elapsed 1 2 = 18446744073709551615 := by decide
  refine ⟨h, ?_, ?_⟩ <;> rw [adaptiveDt, h] <;> norm_num

/-- C6, amended: for all timestamps the interval `dt` of `makeAdaptiveNoise` is the maximum
of the unsigned 64-bit difference `t - time_` (taken mod 2^64) in nanoseconds and the floor
0.001 s, so it is never below the floor and is positive. For `uint64` timestamps with
`time_ <= t` it is the maximum of `(t - time_)` nanoseconds and 0.001 s, which is exactly
0.001 s when `t = time_`. It is the `dt` by which `makeAdaptiveNoise` divides for the
velocities it stores. -/
theorem adaptiveDt_floor (G : Geometry R T) (s : OdometryProcessor R T) (t : Nat) (d : T) :
    (1 / 1000 : R) ≤ adaptiveDt t s.time_ ∧ (0 : R) < adaptiveDt t s.time_ ∧
    (adaptiveDt t s.time_ : R) =
      max ((elapsed t s.time_ : R) * (1 / 1000000000)) (1 / 1000) ∧
    (t < 2 ^ 64 → s.time_ < 2 ^ 64 →
      ((elapsed t s.time_ : Nat) : Int) = ((t : Int) - (s.time_ : Int)) % 2 ^ 64) ∧
    (t < 2 ^ 64 → s.time_ ≤ t →
      (adaptiveDt t s.time_ : R) =
        max (((t - s.time_ : Nat) : R) * (1 / 1000000000)) (1 / 1000)) ∧
    (t < 2 ^ 64 → t = s.time_ → (adaptiveDt t s.time_ : R) = 1 / 1000) ∧
    (makeAdaptiveNoise G s t d).2.lastVelocity_ =
      Vec3.scale (G.translation d) (1 / adaptiveDt t s.time_) ∧
    (makeAdaptiveNoise G s t d).2.lastOmega_ =
      Vec3.scale (Vec3.scale (G.axis d) (G.angle d)) (1 / adaptiveDt t s.time_) := by
  have hfloor : (1 / 1000 : R) ≤ adaptiveDt t s.time_ := le_max_right _ _
  have hel : t < 2 ^ 64 → s.time_ ≤ t → elapsed t s.time_ = t - s.time_ := by
    intro ht hle
    unfold elapsed
    have h1 : t + 2 ^ 64 - s.time_ = (t - s.time_) + 2 ^ 64 := by omega
    rw [h1, Nat.add_mod_right]
    exact Nat.mod_eq_of_lt (by omega)
  refine ⟨hfloor, lt_of_lt_of_le (by norm_num) hfloor, rfl, ?_, ?_, ?_, rfl, rfl⟩
  · intro ht hs
    unfold elapsed
    omega
  · intro ht hle
    rw [adaptiveDt, hel ht hle]
  · intro ht h
    rw [adaptiveDt, hel ht (le_of_eq h.symm), h]
    simp

/-- Witness of the amended C6: a step from the timestamp 1000000000 to 2000000000. -/
theorem adaptiveDt_floor_witness :
    (2000000000 : Nat) < 2 ^ 64 ∧ trackingState.time_ ≤ 2000000000 ∧
      (adaptiveDt 2000000000 trackingState.time_ : ℚ) =
        max (((2000000000 - trackingState.time_ : Nat) : ℚ) * (1 / 1000000000)) (1 / 1000) :=
  ⟨by decide, by decide,
    (adaptiveDt_floor translationGeometry trackingState 2000000000 ⟨1, 0, 0⟩).2.2.2.2.1
      (by decide) (by decide)⟩

/-- C7: with `min <= max` for the translation and for the rotation, the noise that
`makeAdaptiveNoise` returns is the clamp of the constant-velocity deviation `d` to the
interval from `min * dt^2` to `max * dt^2`, where `d` is the norm of
`dx - lastVelocity * dt` for the translation and of `da - lastOmega * dt` for the rotation:
it lies in the interval, is `d` when `d` is inside, the lower end when `d` is below and the
upper end, not `d`, when `d` is at or above it. -/
theorem makeAdaptiveNoise_clamp (G : Geometry R T) (s : OdometryProcessor R T) (t : Nat)
    (deltaPose : T)
    (hpos : s.accelerationNoiseMin_ ≤ s.accelerationNoiseMax_)
    (hang : s.angularAccelerationNoiseMin_ ≤ s.angularAccelerationNoiseMax_)
    (dt dpos dang : R) (hdt : dt = adaptiveDt t s.time_)
    (hdpos : dpos = Vec3.norm G.sqrt
      (Vec3.sub (G.translation deltaPose) (Vec3.scale s.lastVelocity_ dt)))
    (hdang : dang = Vec3.norm G.sqrt
      (Vec3.sub (Vec3.scale (G.axis deltaPose) (G.angle deltaPose))
        (Vec3.scale s.lastOmega_ dt))) :
    ((makeAdaptiveNoise G s t deltaPose).1.translational =
        min (max dpos (s.accelerationNoiseMin_ * (dt * dt))) (s.accelerationNoiseMax_ * (dt * dt)) ∧
      s.accelerationNoiseMin_ * (dt * dt) ≤ (makeAdaptiveNoise G s t deltaPose).1.translational ∧
      (makeAdaptiveNoise G s t deltaPose).1.translational ≤ s.accelerationNoiseMax_ * (dt * dt) ∧
      (s.accelerationNoiseMin_ * (dt * dt) ≤ dpos → dpos ≤ s.accelerationNoiseMax_ * (dt * dt) →
        (makeAdaptiveNoise G s t deltaPose).1.translational = dpos) ∧
      (dpos ≤ s.accelerationNoiseMin_ * (dt * dt) →
        (makeAdaptiveNoise G s t deltaPose).1.translational =
          s.accelerationNoiseMin_ * (dt * dt)) ∧
      (s.accelerationNoiseMax_ * (dt * dt) ≤ dpos →
        (makeAdaptiveNoise G s t deltaPose).1.translational =
          s.accelerationNoiseMax_ * (dt * dt))) ∧
    ((makeAdaptiveNoise G s t deltaPose).1.rotational =
        min (max dang (s.angularAccelerationNoiseMin_ * (dt * dt)))
          (s.angularAccelerationNoiseMax_ * (dt * dt)) ∧
      s.angularAccelerationNoiseMin_ * (dt * dt) ≤
        (makeAdaptiveNoise G s t deltaPose).1.rotational ∧
      (makeAdaptiveNoise G s t deltaPose).1.rotational ≤
        s.angularAccelerationNoiseMax_ * (dt * dt) ∧
      (s.angularAccelerationNoiseMin_ * (dt * dt) ≤ dang →
        dang ≤ s.angularAccelerationNoiseMax_ * (dt * dt) →
        (makeAdaptiveNoise G s t deltaPose).1.rotational = dang) ∧
      (dang ≤ s.angularAccelerationNoiseMin_ * (dt * dt) →
        (makeAdaptiveNoise G s t deltaPose).1.rotational =
          s.angularAccelerationNoiseMin_ * (dt * dt)) ∧
      (s.angularAccelerationNoiseMax_ * (dt * dt) ≤ dang →
        (makeAdaptiveNoise G s t deltaPose).1.rotational =
          s.angularAccelerationNoiseMax_ * (dt * dt))) := by
  have hdt2 : (0 : R) ≤ dt * dt := mul_self_nonneg dt
  have hp := mul_le_mul_of_nonneg_right hpos hdt2
  have ha := mul_le_mul_of_nonneg_right hang hdt2
  have ht : (makeAdaptiveNoise G s t deltaPose).1.translational =
      min (max dpos (s.accelerationNoiseMin_ * (dt * dt)))
        (s.accelerationNoiseMax_ * (dt * dt)) := by
    rw [hdpos, hdt]; rfl
  have hr : (makeAdaptiveNoise G s t deltaPose).1.rotational =
      min (max dang (s.angularAccelerationNoiseMin_ * (dt * dt)))
        (s.angularAccelerationNoiseMax_ * (dt * dt)) := by
    rw [hdang, hdt]; rfl
  rw [ht, hr]
  exact ⟨⟨rfl, clamp_facts _ _ _ hp⟩, ⟨rfl, clamp_facts _ _ _ ha⟩⟩

/-- Witness of C7: a step of one second of the processor `trackingState`, whose bounds are
1/10 and 10; the translational noise is at most `10 * dt^2`. -/
theorem makeAdaptiveNoise_clamp_witness :
    trackingState.accelerationNoiseMin_ ≤ trackingState.accelerationNoiseMax_ ∧
      (makeAdaptiveNoise translationGeometry trackingState 2000000000 ⟨1, 0, 0⟩).1.translational ≤
        trackingState.accelerationNoiseMax_ *
          (adaptiveDt 2000000000 trackingState.time_ *
            adaptiveDt 2000000000 trackingState.time_) :=
  ⟨by norm_num [trackingState, create, adaptiveBody],
    (makeAdaptiveNoise_clamp translationGeometry trackingState 2000000000 ⟨1, 0, 0⟩
      (by norm_num [trackingState, create, adaptiveBody])
      (by norm_num [trackingState, create, adaptiveBody]) _ _ _ rfl rfl rfl).1.2.2.1⟩

/-- C8, refuted as stated: samples at constant velocity, one metre along x every second, fed
to a new processor in adaptive mode with the bounds 1/10 and 10. The factor of the second
call of `process` carries the translational noise 1, the length of the step, where the
configured minimum `accelerationNoiseMin * dt^2` is 1/10. -/
theorem constant_velocity_first_factor :
    (processAll translationGeometry (create adaptiveBody ⟨0, 0, 0⟩, emptyGraph, [])
      [(1000000000, odomAt 0), (2000000000, odomAt 1)]).2.1.factorNoises = [⟨1 / 10, 1⟩] ∧
    adaptiveBody.getOdomAccelerationNoiseMin *
      (adaptiveDt 2000000000 1000000000 * adaptiveDt 2000000000 1000000000) = 1 / 10 ∧
    (1 : ℚ) ≠ adaptiveBody.getOdomAccelerationNoiseMin *
      (adaptiveDt 2000000000 1000000000 * adaptiveDt 2000000000 1000000000) := by
  refine ⟨?_, ?_, ?_⟩
  · simp [processAll, process, create, makeAdaptiveNoise, updateStatistics, add_body_pose_delta,
      Graph.findPose, Graph.addPose, Graph.addToGraph, Graph.factorNoises, Graph.noiseOf,
      Graph.is_valid, Graph.isPoseOf, emptyGraph, adaptiveBody, translationGeometry, odomAt,
      deltaPoseOf, to_pose, adaptiveDt, elapsed, Vec3.norm, Vec3.sub, Vec3.scale,
      Vec3.squaredNorm, Vec3.zero, PoseNoise.make]
    norm_num
  · norm_num [adaptiveBody, adaptiveDt, elapsed]
  · norm_num [adaptiveBody, adaptiveDt, elapsed]

/-- C8, amended: for samples at exactly constant velocity (`uint64` timestamps at the same
time step of at least 1 ms, the same incremental translation `dx` between consecutive
samples) fed to a new processor in adaptive mode with `0 < min <= max`, the translational
noise is the configured minimum `accelerationNoiseMin * dt^2` at every step that creates a
factor except the first such step. At the first step that creates a factor, for which the
previous velocity is the initial zero vector, the noise is the clamp of the length of `dx`
to the interval from `min * dt^2` to `max * dt^2`. The `n + 1` samples create `n` factors
when the first timestamp is not 0 and `n - 1` (none for `n = 0`) when it is 0. The square
root is exact at 0. -/
theorem constant_velocity_noise (G : Geometry R T) (body : Body R T) (pose0 : T)
    (g : Graph R T) (fs : List VertexDesc) (t0 step n : Nat) (msg : Nat → Odometry R)
    (dx : Vec3 R)
    (hadapt : body.getOdomRotationNoise ≤ 0 ∨ body.getOdomTranslationNoise ≤ 0)
    (hmin : 0 < body.getOdomAccelerationNoiseMin)
    (hmm : body.getOdomAccelerationNoiseMin ≤ body.getOdomAccelerationNoiseMax)
    (hstep : 1000000 ≤ step) (hb : t0 + n * step < 2 ^ 64)
    (hdx : ∀ i, i < n → G.translation (deltaPoseOf G body.getTransformBodyOdom
      (to_pose G (msg i)) (to_pose G (msg (i + 1)))) = dx)
    (hsqrt : G.sqrt 0 = 0) :
    ∃ ns : List (PoseNoise R),
      (processAll G (create body pose0, g, fs)
        (uniformRun t0 step msg n)).2.1.factorNoises = g.factorNoises ++ ns ∧
      (t0 ≠ 0 → ns.length = n) ∧ (t0 = 0 → ns.length = n - 1) ∧
      (∀ first rest, ns = first :: rest →
        first.translational =
          min (max (Vec3.norm G.sqrt dx) (body.getOdomAccelerationNoiseMin *
              ((step : R) * (1 / 1000000000) * ((step : R) * (1 / 1000000000)))))
            (body.getOdomAccelerationNoiseMax *
              ((step : R) * (1 / 1000000000) * ((step : R) * (1 / 1000000000)))) ∧
        ∀ pn ∈ rest, pn.translational = body.getOdomAccelerationNoiseMin *
          ((step : R) * (1 / 1000000000) * ((step : R) * (1 / 1000000000)))) := by
  cases n with
  | zero =>
    refine ⟨[], ?_, fun _ => rfl, fun _ => rfl, fun first rest h => by simp at h⟩
    simp only [uniformRun, List.range_succ, List.range_zero, List.nil_append, List.map_cons,
      List.map_nil, processAll]
    rw [process_of_time_zero G _ _ g _ fs rfl]
    simp
  | succ m =>
  by_cases ht0 : t0 = 0
  · subst ht0
    rw [uniformRun_zero]
    simp only [processAll]
    rw [process_of_time_zero G (create body pose0) 0 g (msg 0) fs rfl]
    cases m with
    | zero =>
      refine ⟨[], ?_, fun h => absurd rfl h, fun _ => rfl, fun first rest h => by simp at h⟩
      simp only [uniformRun, List.range_succ, List.range_zero, List.nil_append, List.map_cons,
        List.map_nil, processAll]
      rw [process_of_time_zero G _ _ g _ fs rfl]
      simp
    | succ k =>
      have hb2 : step + (k + 1) * step < 2 ^ 64 := by
        have h : 0 + (k + 1 + 1) * step = step + (k + 1) * step := by
          rw [Nat.succ_mul (k + 1) step]
          omega
        omega
      obtain ⟨first, rest, h1, h2, h3, h4, -⟩ :=
        constant_velocity_run G
          { create body pose0 with
            pub_ := (create body pose0).pub_ ++ [{ msg 0 with frame_id := "map", stamp := 0 }]
            lastOmega_ := Vec3.zero
            lastVelocity_ := Vec3.zero
            pose_ := to_pose G (msg 0)
            time_ := 0 }
          g fs step step (k + 1) (fun i => msg (i + 1)) dx rfl hadapt
          hmin hmm (by omega) hstep hb2 (fun i hi => hdx (i + 1) (by omega)) hsqrt k (le_refl _)
      refine ⟨first :: rest, h1, fun h => absurd rfl h, fun _ => by simp [h2], ?_⟩
      intro f r hfr
      injection hfr with hf hr
      subst hf hr
      exact ⟨h3, h4⟩
  · obtain ⟨first, rest, h1, h2, h3, h4, -⟩ :=
      constant_velocity_run G (create body pose0) g fs t0 step (m + 1) msg dx rfl hadapt hmin
        hmm ht0 hstep hb hdx hsqrt m (le_refl _)
    refine ⟨first :: rest, h1, fun _ => by simp [h2], fun h => absurd h ht0, ?_⟩
    intro f r hfr
    injection hfr with hf hr
    subst hf hr
    exact ⟨h3, h4⟩

/-- Witness of the amended C8: three samples, one metre along x every second. -/
theorem constant_velocity_noise_witness :
    (0 : ℚ) < adaptiveBody.getOdomAccelerationNoiseMin ∧
      ∃ ns : List (PoseNoise ℚ),
        (processAll translationGeometry (create adaptiveBody ⟨0, 0, 0⟩, emptyGraph, [])
          (uniformRun 1000000000 1000000000 (fun i => odomAt i) 2)).2.1.factorNoises =
            emptyGraph.factorNoises ++ ns ∧ ns.length = 2 := by
  have hmin : (0 : ℚ) < adaptiveBody.getOdomAccelerationNoiseMin := by norm_num [adaptiveBody]
  obtain ⟨ns, h1, h2, -⟩ :=
    constant_velocity_noise translationGeometry adaptiveBody ⟨0, 0, 0⟩ emptyGraph []
      1000000000 1000000000 2 (fun i => odomAt i) ⟨1, 0, 0⟩
      (by norm_num [adaptiveBody]) hmin (by norm_num [adaptiveBody]) (by decide)
      (by decide)
      (by
        intro i _
        simp only [translationGeometry, deltaPoseOf, to_pose, odomAt, adaptiveBody,
          Vec3.mk.injEq]
        refine ⟨?_, ?_, ?_⟩ <;> push_cast <;> ring)
      (by simp [translationGeometry])
  exact ⟨hmin, ns, h1, h2 (by decide)⟩

/-- C9, refuted as stated: a processor with the fixed noise (1/100, 1/50), called at the
timestamps 0 and 5. The second call is not the first one and both noise values are positive,
yet no factor is created: the graph holds no factor and the list of descriptors is empty,
so that no noise is attached to anything. -/
theorem process_after_timestamp_zero_no_noise :
    (processAll translationGeometry (create fixedBody ⟨0, 0, 0⟩, emptyGraph, [])
      [(0, odomAt 0), (5, odomAt 1)]).2.1.factorNoises = [] ∧
    (processAll translationGeometry (create fixedBody ⟨0, 0, 0⟩, emptyGraph, [])
      [(0, odomAt 0), (5, odomAt 1)]).2.1.vertices.length = 0 ∧
    (processAll translationGeometry (create fixedBody ⟨0, 0, 0⟩, emptyGraph, [])
      [(0, odomAt 0), (5, odomAt 1)]).2.2 = [] ∧
    (0 : ℚ) < fixedBody.getOdomRotationNoise ∧ (0 : ℚ) < fixedBody.getOdomTranslationNoise := by
  refine ⟨?_, ?_, ?_, ?_, ?_⟩
  · simp [processAll, process, create, emptyGraph, Graph.factorNoises]
  · simp [processAll, process, create, emptyGraph]
  · simp [processAll, process, create]
  · norm_num [fixedBody, adaptiveBody]
  · norm_num [fixedBody, adaptiveBody]

/-- C9, amended: every call of `process` stores its timestamp in `time_`, and for every call
made when the stored `time_` is not 0 (a call that is not the first one and whose previous
call had a timestamp other than 0), one factor is added to the graph and its descriptor is
appended to the list. The factor is a relative pose prior between the stored time and the
current one, and its `PoseWithNoise` carries the incremental transform with the flag set to
true. If `rotationNoise_` and `translationNoise_` are both strictly positive, the noise is
`PoseNoise::make(rotationNoise_, translationNoise_)` and the velocity estimates are left
unchanged; if one of them is zero or negative, the noise is the one that
`makeAdaptiveNoise` returns, and the velocity estimates are the ones it stores. One of the
two cases always holds. -/
theorem process_noise_selection (G : Geometry R T) (s : OdometryProcessor R T) (t : Nat)
    (g : Graph R T) (msg : Odometry R) (fs : List VertexDesc) (h : s.time_ ≠ 0)
    (d : T) (hd : d = deltaPoseOf G s.T_body_odom_ s.pose_ (to_pose G msg)) :
    (∀ (s1 : OdometryProcessor R T) (t1 : Nat) (g1 : Graph R T) (msg1 : Odometry R)
      (fs1 : List VertexDesc), (process G s1 t1 g1 msg1 fs1).1.time_ = t1) ∧
    ∃ (pn : PoseNoise R) (g1 : Graph R T),
      (process G s t g msg fs).2.1.vertices = g1.vertices ++
        [.relativePosePrior t s.time_ ⟨d, pn, true⟩ (G.body_name s.body_.getName)] ∧
      (process G s t g msg fs).2.2 = fs ++ [some g1.vertices.length] ∧
      (process G s t g msg fs).2.1.vertices[g1.vertices.length]? =
        some (.relativePosePrior t s.time_ ⟨d, pn, true⟩ (G.body_name s.body_.getName)) ∧
      (process G s t g msg fs).2.1.factorNoises = g.factorNoises ++ [pn] ∧
      (0 < s.rotationNoise_ ∧ 0 < s.translationNoise_ →
        pn = PoseNoise.make s.rotationNoise_ s.translationNoise_ ∧
        (process G s t g msg fs).1.lastVelocity_ = s.lastVelocity_ ∧
        (process G s t g msg fs).1.lastOmega_ = s.lastOmega_) ∧
      (s.rotationNoise_ ≤ 0 ∨ s.translationNoise_ ≤ 0 →
        pn = (makeAdaptiveNoise G s t d).1 ∧
        (process G s t g msg fs).1.lastVelocity_ = (makeAdaptiveNoise G s t d).2.lastVelocity_ ∧
        (process G s t g msg fs).1.lastOmega_ = (makeAdaptiveNoise G s t d).2.lastOmega_) ∧
      ((0 < s.rotationNoise_ ∧ 0 < s.translationNoise_) ∨
        (s.rotationNoise_ ≤ 0 ∨ s.translationNoise_ ≤ 0)) := by
  obtain ⟨pn, g1, -, -, hv, hdesc, hfn, -, -, -, had, hfix⟩ :=
    process_tracking G s t g msg fs h d hd
  refine ⟨fun s1 t1 g1 msg1 fs1 => process_time G s1 t1 g1 msg1 fs1,
    pn, g1, hv, hdesc, ?_, hfn, hfix, had, ?_⟩
  · rw [hv]
    simp
  · by_cases h1 : s.rotationNoise_ ≤ 0
    · exact Or.inr (Or.inl h1)
    · by_cases h2 : s.translationNoise_ ≤ 0
      · exact Or.inr (Or.inr h2)
      · exact Or.inl ⟨not_le.mp h1, not_le.mp h2⟩

/-- Witness of the amended C9: a call on the processor `fixedTrackingState`, whose stored time
is not 0 and whose fixed noise is (1/100, 1/50), adds one factor to the empty graph, with
that noise. -/
theorem process_noise_selection_witness :
    fixedTrackingState.time_ ≠ 0 ∧
      (process translationGeometry fixedTrackingState 2000000000 emptyGraph (odomAt 1)
        []).2.1.factorNoises = [PoseNoise.make (1 / 100) (1 / 50)] := by
  have h0 : fixedTrackingState.time_ ≠ 0 := by decide
  obtain ⟨-, pn, g1, -, -, -, hfn, hfix, -⟩ :=
    process_noise_selection translationGeometry fixedTrackingState 2000000000 emptyGraph
      (odomAt 1) [] h0 _ rfl
  have hpn := (hfix (by norm_num [fixedTrackingState, create, fixedBody, adaptiveBody])).1
  rw [hfn, hpn]
  exact ⟨h0, rfl⟩

/-- C10: for a non-empty list of incremental transforms accumulated by `updateStatistics`
from empty statistics, with lengths `l_i` (the square root being exact on the squared norms
met) and angles `a_i`, the sums of the processor are `count_ = n`, `lenSum_ = sum l_i`,
`len2Sum_ = sum l_i^2`, and `finalize` reports the arithmetic mean `lavg = (sum l_i) / n` and
the square root of `cov = (1/n) * (len2Sum_ - lavg^2 * n)`, which is the population variance
`(1/n) * sum (l_i - lavg)^2` and so is not negative; likewise for the angles. With
`count_ = 0` nothing is divided and the mean and the deviation reported are 0. `finalize`
hands the processor back unchanged, and has no access to the graph. -/
theorem finalize_statistics (G : Geometry R T) (s0 : OdometryProcessor R T)
    (ds : List (Nat × T)) (ls as : List R) (n : R) (st : OdomStatistics R)
    (hcount : s0.count_ = 0) (hlen : s0.lenSum_ = 0) (hlen2 : s0.len2Sum_ = 0)
    (hang : s0.angSum_ = 0) (hang2 : s0.ang2Sum_ = 0)
    (hsqrt : ∀ d ∈ ds, G.sqrt (Vec3.squaredNorm (G.translation d.2)) *
      G.sqrt (Vec3.squaredNorm (G.translation d.2)) = Vec3.squaredNorm (G.translation d.2))
    (hls : ls = ds.map (fun d => G.sqrt (Vec3.squaredNorm (G.translation d.2))))
    (has : as = ds.map (fun d => G.angle d.2))
    (hn : n = (ds.length : R))
    (hst : st = (finalize G (updateStatisticsAll G s0 ds)).1) :
    ((updateStatisticsAll G s0 ds).count_ = ds.length ∧
      (updateStatisticsAll G s0 ds).lenSum_ = ls.sum ∧
      (updateStatisticsAll G s0 ds).len2Sum_ = (ls.map (fun l => l * l)).sum ∧
      (updateStatisticsAll G s0 ds).angSum_ = as.sum ∧
      (updateStatisticsAll G s0 ds).ang2Sum_ = (as.map (fun a => a * a)).sum) ∧
    (ds ≠ [] →
      st.lavg = ls.sum / n ∧
      st.cov = 1 / n * ((updateStatisticsAll G s0 ds).len2Sum_ - st.lavg * st.lavg * n) ∧
      st.cov = 1 / n * (ls.map (fun l => (l - st.lavg) * (l - st.lavg))).sum ∧
      0 ≤ st.cov ∧ st.lstd = G.sqrt st.cov ∧
      st.aavg = as.sum / n ∧
      st.acov = 1 / n * ((updateStatisticsAll G s0 ds).ang2Sum_ - st.aavg * st.aavg * n) ∧
      st.acov = 1 / n * (as.map (fun a => (a - st.aavg) * (a - st.aavg))).sum ∧
      0 ≤ st.acov ∧ st.astd = G.sqrt st.acov) ∧
    (finalize G (updateStatisticsAll G s0 ds)).2 = updateStatisticsAll G s0 ds ∧
    (∀ s : OdometryProcessor R T, s.count_ = 0 → G.sqrt 0 = 0 →
      (finalize G s).1.lavg = 0 ∧ (finalize G s).1.cov = 0 ∧ (finalize G s).1.lstd = 0 ∧
      (finalize G s).1.aavg = 0 ∧ (finalize G s).1.acov = 0 ∧ (finalize G s).1.astd = 0 ∧
      (finalize G s).2 = s) := by
  obtain ⟨hc, hl, hl2, ha, ha2⟩ := updateStatisticsAll_sums G ds s0
  rw [hcount, zero_add] at hc
  rw [hlen, zero_add, ← hls] at hl
  rw [hang, zero_add, ← has] at ha
  have hl2' : (updateStatisticsAll G s0 ds).len2Sum_ = (ls.map (fun l => l * l)).sum := by
    rw [hl2, hlen2, zero_add, hls, List.map_map]
    congr 1
    apply List.map_congr_left
    intro d hd
    exact (hsqrt d hd).symm
  have ha2' : (updateStatisticsAll G s0 ds).ang2Sum_ = (as.map (fun a => a * a)).sum := by
    rw [ha2, hang2, zero_add, has, List.map_map]
    rfl
  refine ⟨⟨hc, hl, hl2', ha, ha2'⟩, ?_, rfl, ?_⟩
  · intro hne
    have hpos : ds.length > 0 := List.length_pos.mpr hne
    have hlsne : ls ≠ [] := by rw [hls]; simpa using hne
    have hasne : as ≠ [] := by rw [has]; simpa using hne
    have hlslen : (ls.length : R) = n := by rw [hls, hn]; simp
    have haslen : (as.length : R) = n := by rw [has, hn]; simp
    have hlavg : st.lavg = ls.sum * (1 / n) := by
      rw [hst]
      simp only [finalize, if_pos hpos, hl, hc, hn]
    have haavg : st.aavg = as.sum * (1 / n) := by
      rw [hst]
      simp only [finalize, if_pos hpos, ha, hc, hn]
    have hcov : st.cov =
        1 / n * ((updateStatisticsAll G s0 ds).len2Sum_ - st.lavg * st.lavg * n) := by
      rw [hst]
      simp only [finalize, if_pos hpos, hc, hn]
    have hacov : st.acov =
        1 / n * ((updateStatisticsAll G s0 ds).ang2Sum_ - st.aavg * st.aavg * n) := by
      rw [hst]
      simp only [finalize, if_pos hpos, hc, hn]
    have hvl := variance_identity ls hlsne st.lavg (by rw [hlslen]; exact hlavg)
    have hva := variance_identity as hasne st.aavg (by rw [haslen]; exact haavg)
    rw [hlslen] at hvl
    rw [haslen] at hva
    have hcov2 : st.cov = 1 / n * (ls.map (fun l => (l - st.lavg) * (l - st.lavg))).sum := by
      rw [hcov, hl2']; exact hvl.1
    have hacov2 : st.acov = 1 / n * (as.map (fun a => (a - st.aavg) * (a - st.aavg))).sum := by
      rw [hacov, ha2']; exact hva.1
    refine ⟨by rw [hlavg]; ring, hcov, hcov2, by rw [hcov2]; exact hvl.2, by rw [hst]; rfl,
      by rw [haavg]; ring, hacov, hacov2, by rw [hacov2]; exact hva.2, by rw [hst]; rfl⟩
  · intro s hs h0
    simp [finalize, hs, h0]

/-- Witness of C10: two transforms, of lengths 5 and 0, accumulated by a new processor; the
mean length reported is 5/2. -/
theorem finalize_statistics_witness :
    (create adaptiveBody (⟨0, 0, 0⟩ : Vec3 ℚ)).count_ = 0 ∧
      (finalize translationGeometry (updateStatisticsAll translationGeometry
        (create adaptiveBody ⟨0, 0, 0⟩) [(1, ⟨3, 4, 0⟩), (2, ⟨0, 0, 0⟩)])).1.lavg = 5 / 2 := by
  have h25 : Rat.sqrt 25 = 5 := by
    have h : Rat.sqrt (5 * 5) = |5| := Rat.sqrt_eq 5
    rw [show (5 : ℚ) * 5 = 25 by norm_num, abs_of_pos (by norm_num)] at h
    exact h
  have h := (finalize_statistics translationGeometry (create adaptiveBody ⟨0, 0, 0⟩)
    [(1, ⟨3, 4, 0⟩), (2, ⟨0, 0, 0⟩)] _ _ _ _ rfl rfl rfl rfl rfl
    (by
      intro d hd
      simp only [List.mem_cons, List.mem_singleton, List.not_mem_nil, or_false] at hd
      rcases hd with hd | hd <;> subst hd <;>
        norm_num [translationGeometry, Vec3.squaredNorm, h25])
    rfl rfl rfl rfl).2.1 (by simp)
  refine ⟨rfl, ?_⟩
  rw [h.1]
  norm_num [translationGeometry, Vec3.squaredNorm, h25]

end OdometryClaims

end OdometryProcessor

end tagslam
